import Mathlib

/-!
Verification of the AntColony delivery-routing repository.

The development shallowly embeds the Python sources:
  * `helper_functions.py` — route-length computation;
  * `CIACO_Algo.py` — the CIACO ant-colony optimizer (`optimize_route`,
    `_construct_solution`, `_initialize_pheromones`);
  * `dynamic_routing.py` — the `DynamicRoutingSystem` registry
    (`find_suitable_truck`, `assign_delivery`, `update_truck_status`,
    `handle_truck_breakdown`);
  * `Truck.py` / `Order.py` / `deliveryManagementSystem.py` — the
    order-intake variant (`Truck.add_order`, `assign_new_order`).

Modelling conventions:
  * Python floats become rationals (`ℚ`).  The floating-point square root
    inside `euclidean_distance` is not exactly representable, so every
    definition that consumes distances is parametric in an abstract
    distance function `d : Point → Point → ℚ`; theorems hold for all `d`
    and concrete instances pick an exactly-computable `d`.
  * `random.choices` draws (with the source's resample-until-unvisited
    loop) are abstracted into a `pick` oracle; faithful executions are
    those whose oracle returns a member of the unvisited list, which is
    exactly the property the source's rejection loop enforces on any
    terminating run.
  * Python dicts become association lists with unique keys; `dict`
    deletion removes the key, update rewrites the value in place.
-/

/-- A 2-D coordinate, compared by value (Python tuple of floats). -/
abbrev Point : Type := ℚ × ℚ

/-- Sum of consecutive distances along a stop list
(the `for i in range(len(stops) - 1)` loop of `total_route_distance`). -/
def consecSum (d : Point → Point → ℚ) : List Point → ℚ
  | [] => 0
  | [_] => 0
  | a :: b :: rest => d a b + consecSum d (b :: rest)

/-- Embedding of `helper_functions.total_route_distance`: sum of consecutive distances,
plus the closing leg from the last stop back to the first when
`return_to_depot` holds and there is more than one stop. -/
def totalRouteDistance (d : Point → Point → ℚ) (stops : List Point)
    (returnToDepot : Bool := true) : ℚ :=
  if stops = [] then 0
  else
    consecSum d stops +
      (if returnToDepot ∧ 1 < stops.length then
        d (stops.getLastD (0, 0)) (stops.headD (0, 0))
      else 0)

/-! ## `Order.py` and `Truck.py` -/

/-- Embedding of `Order.Order`: a delivery order. -/
structure OrderR where
  orderId : String
  weight : ℚ
  pickup : Point
  dropoff : Point
deriving Repr, DecidableEq

/-- Embedding of `Truck.Truck`: a truck with its route, assigned orders and capacity. -/
structure OTruck where
  truckId : String
  currentLocation : Point
  maxCapacity : ℚ
  assignedOrders : List OrderR
  route : List Point
  remainingCapacity : ℚ
deriving Repr, DecidableEq

namespace OTruck

/-- Embedding of `Truck.__init__`: fresh truck, empty order list, route starting at the
current location, remaining capacity equal to the maximum capacity. -/
def mk0 (truckId : String) (currentLocation : Point) (maxCapacity : ℚ) : OTruck :=
  { truckId := truckId
    currentLocation := currentLocation
    maxCapacity := maxCapacity
    assignedOrders := []
    route := [currentLocation]
    remainingCapacity := maxCapacity }

/-- Embedding of `Truck.update_capacity`: recompute remaining capacity from scratch as
maximum capacity minus the summed weights of all assigned orders. -/
def updateCapacity (t : OTruck) : OTruck :=
  { t with remainingCapacity :=
      t.maxCapacity - (t.assignedOrders.map (fun o => o.weight)).sum }

/-- Embedding of `Truck.add_order`: append the order, then recompute capacity. -/
def addOrder (t : OTruck) (o : OrderR) : OTruck :=
  updateCapacity { t with assignedOrders := t.assignedOrders ++ [o] }

end OTruck

/-! ## `CIACO_Algo.py`: the optimizer -/

/-- Configuration of a `CIACO` instance.  The constructor validates
`num_ants > 0` and `iterations > 0`; the remaining parameters
(`alpha`, `beta`, `evaporation_rate`, `initial_pheromone`, `num_clusters`,
`elitist_factor`) only shape the sampling probabilities and the pheromone
field, which the embedding abstracts into the `pick` oracle, so they are
not carried here. -/
structure CiacoConfig where
  numAnts : Nat
  iterations : Nat
  returnToDepot : Bool
deriving Repr, DecidableEq

/-- The persistent fields of a `CIACO` object that survive between
`optimize_route` calls: `self.best_route` (initially `None`) and
`self.best_distance` (initially `float('inf')`, modelled as `none`). -/
structure CiacoState where
  bestRoute : Option (List Point)
  bestDistance : Option ℚ
deriving Repr, DecidableEq

/-- The `CIACO.__init__` state: `best_route = None`, `best_distance = inf`. -/
def CiacoState.fresh : CiacoState := ⟨none, none⟩

/-- The comparison `distance < self.best_distance`, where `best_distance` may be
`float('inf')` (`none`): everything is below infinity. -/
def distLt (x : ℚ) : Option ℚ → Bool
  | none => true
  | some b => x < b

/-- The tour loop of `CIACO._construct_solution`: while unvisited stops
remain, draw the next index (`random.choices` resampled until it lies in
`unvisited`, abstracted into `pick current unvisited`), append it and
remove it from the unvisited list.  An oracle answer outside the
unvisited list corresponds to a non-terminating rejection loop in the
source, so the embedding cuts the tour short there; theorems assume the
oracle answers inside the list. -/
def tourIndicesAux (pick : Nat → List Nat → Nat) :
    Nat → Nat → List Nat → List Nat
  | 0, _, _ => []
  | fuel + 1, current, unvisited =>
    if unvisited = [] then []
    else
      let next := pick current unvisited
      if next ∈ unvisited then
        next :: tourIndicesAux pick fuel next (unvisited.erase next)
      else []

/-- The loop runs at most `unvisited.length` times because every pass
removes the drawn index, so that length serves as structural fuel. -/
def tourIndices (pick : Nat → List Nat → Nat) (current : Nat)
    (unvisited : List Nat) : List Nat :=
  tourIndicesAux pick unvisited.length current unvisited

/-- Embedding of `CIACO._construct_solution`: start at the depot (index 0), visit every
remaining index as drawn by the oracle, append the depot again when
`return_to_depot` is set.  Indices resolve to coordinates through the
stop list. -/
def constructSolution (stops : List Point) (returnToDepot : Bool)
    (pick : Nat → List Nat → Nat) : List Point :=
  let n := stops.length
  let unvisited := (List.range n).drop 1
  let visitOrder := 0 :: tourIndices pick 0 unvisited
  let route := visitOrder.map (fun i => stops.getD i (0, 0))
  if returnToDepot then route ++ [stops.getD 0 (0, 0)] else route

/-- One ant of the main ACO loop of `CIACO.optimize_route`: construct a
route, measure it, and update `best_route` / `best_distance` when the new
distance is strictly below the best seen so far. -/
def antStep (d : Point → Point → ℚ) (stops : List Point) (cfg : CiacoConfig)
    (pick : Nat → List Nat → Nat) (st : CiacoState) : CiacoState :=
  let route := constructSolution stops cfg.returnToDepot pick
  let dist := totalRouteDistance d route cfg.returnToDepot
  if distLt dist st.bestDistance then ⟨some route, some dist⟩ else st

/-- The `for iteration in range(self.iterations)` / `for ant in
range(self.num_ants)` double loop of `CIACO.optimize_route`. -/
def acoLoop (d : Point → Point → ℚ)
    (picks : Nat → Nat → Nat → List Nat → Nat) (cfg : CiacoConfig)
    (stops : List Point) (st : CiacoState) : CiacoState :=
  (List.range cfg.iterations).foldl
    (fun s it =>
      (List.range cfg.numAnts).foldl
        (fun s2 ant => antStep d stops cfg (picks it ant) s2) s)
    st

/-- Embedding of `CIACO.optimize_route`.  Raises on an empty stop list; returns a stop
list of size ≤ 2 unchanged without touching the object state; otherwise
runs `iterations` rounds of `num_ants` ants (the oracle `picks` is indexed
by round and ant) and returns `self.best_route` — which is whatever the
persistent state held if no ant improved on it.  The distance, visibility
and pheromone matrices, and the clustering, influence only the sampling
probabilities, which the `picks` oracle abstracts. -/
def optimizeRoute (d : Point → Point → ℚ)
    (picks : Nat → Nat → Nat → List Nat → Nat) (cfg : CiacoConfig)
    (st : CiacoState) (stops : List Point) :
    Except String (Option (List Point) × CiacoState) :=
  if stops = [] then .error "Stops list cannot be empty"
  else if stops.length ≤ 2 then .ok (some stops, st)
  else
    let st' := acoLoop d picks cfg stops st
    .ok (st'.bestRoute, st')

/-- The route shape promised for `optimize_route` on a valid stop list: a
permutation of the input starting at the depot, with the depot appended
once more at the end when `return_to_depot` is enabled. -/
def goodRoute (stops : List Point) (returnToDepot : Bool)
    (r : List Point) : Prop :=
  if returnToDepot then
    ∃ body, r = body ++ [stops.headD (0, 0)] ∧ body.Perm stops ∧
      body.headD (0, 0) = stops.headD (0, 0)
  else
    r.Perm stops ∧ r.headD (0, 0) = stops.headD (0, 0)

/-- States whose recorded best route (if any) has the promised shape, the
invariant carried through the ACO loop from a fresh optimizer. -/
def goodState (stops : List Point) (returnToDepot : Bool)
    (s : CiacoState) : Prop :=
  ∃ r, s.bestRoute = some r ∧ goodRoute stops returnToDepot r

instance {ε α : Type} [DecidableEq ε] [DecidableEq α] :
    DecidableEq (Except ε α) := fun x y =>
  match x, y with
  | .error e, .error f =>
    if h : e = f then isTrue (by rw [h])
    else isFalse (fun hc => h (by injection hc))
  | .error _, .ok _ => isFalse (fun hc => Except.noConfusion hc)
  | .ok _, .error _ => isFalse (fun hc => Except.noConfusion hc)
  | .ok a, .ok b =>
    if h : a = b then isTrue (by rw [h])
    else isFalse (fun hc => h (by injection hc))

/-- A concrete distance instance: the taxicab metric.  On stop sets whose
points all share the same second coordinate (as in the scenarios below) it
coincides exactly with the source's Euclidean `math.sqrt`-based distance. -/
def dLine : Point → Point → ℚ := fun p q =>
  (if p.1 ≤ q.1 then q.1 - p.1 else p.1 - q.1) +
    (if p.2 ≤ q.2 then q.2 - p.2 else p.2 - q.2)

/-! ## `CIACO._initialize_pheromones` -/

/-- Whether the two assignment statements executed for the ordered cluster
pair `p = (a, b)` (`matrix[a][b] *= 1.5; matrix[b][a] *= 1.5`, guarded by
`a != b`) touch the entry `(i, j)`. -/
def pheromoneHit (p : Nat × Nat) (i j : Nat) : Bool :=
  decide (p.1 ≠ p.2) &&
    ((decide (i = p.1) && decide (j = p.2)) ||
      (decide (i = p.2) && decide (j = p.1)))

/-- Effect of one ordered cluster pair on the pheromone matrix. -/
def boostPair (m : Nat → Nat → ℚ) (p : Nat × Nat) : Nat → Nat → ℚ :=
  fun i j => if pheromoneHit p i j then m i j * (3 / 2) else m i j

/-- The `for i in cluster: for j in cluster:` double loop of
`CIACO._initialize_pheromones` for a single cluster. -/
def boostCluster (m : Nat → Nat → ℚ) (c : List Nat) : Nat → Nat → ℚ :=
  (c.product c).foldl boostPair m

/-- Embedding of `CIACO._initialize_pheromones`: every off-diagonal entry starts at
`initial_pheromone`, the diagonal at 0 (`np.fill_diagonal`), then every
cluster's loop runs.  The matrix is modelled as a total function; the
source's `n × n` array restricts the indices but the loops only ever
touch indices listed in the clusters. -/
def initPheromones (τ0 : ℚ) (clusters : List (List Nat)) :
    Nat → Nat → ℚ :=
  clusters.foldl boostCluster (fun i j => if i = j then 0 else τ0)

/-- Two stop indices lie in a common cluster. -/
def sameCluster (clusters : List (List Nat)) (i j : Nat) : Prop :=
  ∃ c ∈ clusters, i ∈ c ∧ j ∈ c

instance (clusters : List (List Nat)) (i j : Nat) :
    Decidable (sameCluster clusters i j) :=
  List.decidableBEx (fun c => i ∈ c ∧ j ∈ c) clusters

/-! ## `dynamic_routing.py`: the `DynamicRoutingSystem` registry

Vehicle and task records are Python dicts; they become structures (the
`last_update` timestamp and the H3 `hex_id` fields are wall-clock /
geospatial bookkeeping consumed only by excluded collaborators and are
not carried).  The two registries are dicts keyed by id, modelled as
association lists: lookup returns the first matching key, update rewrites
every entry of that key in place (identical to dict semantics on the
duplicate-free key lists dicts guarantee), deletion drops the key.
`_calculate_distance` (a float `sqrt`) is the abstract parameter `dcalc`;
`_can_meet_time_window` reads the wall clock, so it is the abstract
boolean oracle `canMeet truckId deliveryId`; the CIACO route recomputation
is the abstract oracle `opt`. -/

/-- A `DynamicRoutingSystem` truck record. -/
structure TruckR where
  maxCapacity : ℚ
  currentCapacity : ℚ
  currentLocation : Point
  currentRoute : List Point
  deliveries : List String
  totalWeight : ℚ
deriving Repr, DecidableEq

/-- A `DynamicRoutingSystem` delivery record.  `hasTimeWindow` mirrors the
truthiness test `if delivery['time_window']:`. -/
structure DeliveryR where
  pickup : Point
  dropoff : Point
  weight : ℚ
  status : String
  assignedTruck : Option String
  hasTimeWindow : Bool
deriving Repr, DecidableEq

/-- The two registries (`self.trucks`, `self.deliveries`). -/
structure RSys where
  trucks : List (String × TruckR)
  deliveries : List (String × DeliveryR)
deriving Repr, DecidableEq

/-- Dict lookup: first entry with the key. -/
def lookupA {α : Type} : List (String × α) → String → Option α
  | [], _ => none
  | p :: rest, k => if p.1 = k then some p.2 else lookupA rest k

/-- Dict value update in place. -/
def updA {α : Type} : List (String × α) → String → (α → α) →
    List (String × α)
  | [], _, _ => []
  | p :: rest, k, f =>
    (if p.1 = k then (p.1, f p.2) else p) :: updA rest k f

/-- Embedding of `DynamicRoutingSystem.find_suitable_truck`: scan the trucks in
registry order; skip a truck whose committed weight plus the task weight
exceeds its maximum capacity; among trucks whose current capacity covers
the weight (and which pass the time-window check when the task has a
window), keep the one nearest to the pickup (strictly smaller distance,
starting from `min_distance = inf`). -/
def findSuitableTruck (dcalc : Point → Point → ℚ)
    (canMeet : String → String → Bool) (sys : RSys) (deliveryId : String) :
    Option String :=
  match lookupA sys.deliveries deliveryId with
  | none => none
  | some dv =>
    (sys.trucks.foldl (fun acc p =>
      if p.2.totalWeight + dv.weight > p.2.maxCapacity then acc
      else if p.2.currentCapacity ≥ dv.weight then
        if dv.hasTimeWindow && !(canMeet p.1 deliveryId) then acc
        else
          let dist := dcalc p.2.currentLocation dv.pickup
          if distLt dist acc.2 then (some p.1, some dist) else acc
      else acc)
      ((none : Option String), (none : Option ℚ))).1

/-- Embedding of `DynamicRoutingSystem.optimize_route`'s stop list: the truck's
current location, the dropoffs of its in-progress deliveries in list
order, then the new delivery's pickup and dropoff. -/
def optimizeStops (sys : RSys) (truckId newDeliveryId : String) :
    List Point :=
  match lookupA sys.trucks truckId, lookupA sys.deliveries newDeliveryId with
  | some tr, some nd =>
    (tr.currentLocation ::
      tr.deliveries.filterMap (fun did =>
        match lookupA sys.deliveries did with
        | some dv =>
          if dv.status = "in_progress" then some dv.dropoff else none
        | none => none)) ++ [nd.pickup, nd.dropoff]
  | _, _ => []

/-- Embedding of `DynamicRoutingSystem.assign_delivery`: reject unknown or non-pending
tasks; find a suitable truck (`if not truck_id:` also rejects the
empty-string id); on success mark the task in progress, bind it, append
it to the truck, add its weight to the committed total, subtract it from
the current capacity, and recompute the truck's route on the mutated
registry. -/
def assignDelivery (dcalc : Point → Point → ℚ)
    (canMeet : String → String → Bool) (opt : List Point → List Point)
    (sys : RSys) (deliveryId : String) : Bool × RSys :=
  match lookupA sys.deliveries deliveryId with
  | none => (false, sys)
  | some dv =>
    if dv.status ≠ "pending" then (false, sys)
    else
      match findSuitableTruck dcalc canMeet sys deliveryId with
      | none => (false, sys)
      | some tid =>
        if tid = "" then (false, sys)
        else
          let sys1 : RSys :=
            { trucks := updA sys.trucks tid (fun tr =>
                { tr with deliveries := tr.deliveries ++ [deliveryId]
                          totalWeight := tr.totalWeight + dv.weight
                          currentCapacity := tr.currentCapacity - dv.weight })
              deliveries := updA sys.deliveries deliveryId (fun dvv =>
                { dvv with status := "in_progress"
                           assignedTruck := some tid }) }
          let sys2 : RSys :=
            { sys1 with trucks := updA sys1.trucks tid (fun tr =>
                { tr with
                  currentRoute := opt (optimizeStops sys1 tid deliveryId) }) }
          (true, sys2)

/-- The delivery-status loop of `DynamicRoutingSystem.update_truck_status`,
with Python's `for delivery_id in truck['deliveries']` iterator semantics
made explicit: the iterator yields the element at internal index `i` of
the LIVE list and then increments `i`, so when the body removes the
current element (`truck['deliveries'].remove(delivery_id)`) the element
that slides into position `i` is silently skipped.  Each pass either
keeps the list or shortens it, so the list's initial length bounds the
number of passes and serves as structural fuel. -/
def advanceLoop (dcalc : Point → Point → ℚ) (loc : Point)
    (truckId : String) : Nat → Nat → RSys → RSys
  | 0, _, sys => sys
  | fuel + 1, i, sys =>
    match lookupA sys.trucks truckId with
    | none => sys
    | some tr =>
      if i < tr.deliveries.length then
        let did := tr.deliveries.getD i ""
        let sys' :=
          match lookupA sys.deliveries did with
          | none => sys
          | some dv =>
            if dv.status = "in_progress" ∧ dcalc loc dv.dropoff < 1 / 100 then
              { deliveries := updA sys.deliveries did (fun dvv =>
                  { dvv with status := "completed" })
                trucks := updA sys.trucks truckId (fun trr =>
                  { trr with
                    currentCapacity := trr.currentCapacity + dv.weight
                    totalWeight := trr.totalWeight - dv.weight
                    deliveries := trr.deliveries.erase did }) }
            else sys
        advanceLoop dcalc loc truckId fuel (i + 1) sys'
      else sys

/-- Embedding of `DynamicRoutingSystem.update_truck_status`: set the truck's location,
then walk its delivery list completing every in-progress delivery whose
dropoff lies within the 0.01 proximity threshold of the new location —
subject to the skip-after-remove iterator behaviour of `advanceLoop`. -/
def updateTruckStatus (dcalc : Point → Point → ℚ) (sys : RSys)
    (truckId : String) (loc : Point) : RSys :=
  match lookupA sys.trucks truckId with
  | none => sys
  | some tr =>
    let sys0 : RSys :=
      { sys with trucks := updA sys.trucks truckId (fun trr =>
          { trr with currentLocation := loc }) }
    advanceLoop dcalc loc truckId tr.deliveries.length 0 sys0

/-- Step 1 of `handle_truck_breakdown`: reset every listed delivery to
pending with no assigned truck. -/
def resetDeliveries (sys : RSys) (ids : List String) : RSys :=
  ids.foldl (fun s did =>
    { s with deliveries := updA s.deliveries did (fun dv =>
        { dv with status := "pending", assignedTruck := none }) }) sys

/-- Embedding of `del self.trucks[truck_id]`. -/
def removeTruck (sys : RSys) (tid : String) : RSys :=
  { sys with trucks := sys.trucks.filter (fun p => decide (p.1 ≠ tid)) }

/-- Python's stable `sort(key=weight, reverse=True)`.  The verified
properties depend only on the result being a permutation, so a plain
insertion sort by descending weight stands in for it. -/
def insertByWeight (x : String × ℚ) : List (String × ℚ) → List (String × ℚ)
  | [] => [x]
  | y :: ys => if x.2 ≥ y.2 then x :: y :: ys else y :: insertByWeight x ys

def sortByWeightDesc (l : List (String × ℚ)) : List (String × ℚ) :=
  l.foldr insertByWeight []

/-- The first-pass candidate search of `handle_truck_breakdown`: any truck
whose current capacity covers at least 90% of the task weight, nearest to
the pickup. -/
def findReassignTruck (dcalc : Point → Point → ℚ) (sys : RSys)
    (did : String) : Option String :=
  match lookupA sys.deliveries did with
  | none => none
  | some dv =>
    (sys.trucks.foldl (fun acc p =>
      if p.2.currentCapacity ≥ dv.weight * (9 / 10) then
        let dist := dcalc p.2.currentLocation dv.pickup
        if distLt dist acc.2 then (some p.1, some dist) else acc
      else acc)
      ((none : Option String), (none : Option ℚ))).1

/-- One step of the reassignment loop: find a candidate (`if
new_truck_id:` treats the empty id as none, setting `success = False`);
on success bind the delivery exactly as `assign_delivery` does and
recompute the new truck's route; on failure clear the success flag and
leave the task pending. -/
def reassignOne (dcalc : Point → Point → ℚ) (opt : List Point → List Point)
    (acc : Bool × RSys) (obj : String × ℚ) : Bool × RSys :=
  let did := obj.1
  let sys := acc.2
  match findReassignTruck dcalc sys did with
  | none => (false, sys)
  | some tid =>
    if tid = "" then (false, sys)
    else
      match lookupA sys.deliveries did with
      | none => (acc.1, sys)
      | some dv =>
        let sys1 : RSys :=
          { trucks := updA sys.trucks tid (fun tr =>
              { tr with deliveries := tr.deliveries ++ [did]
                        totalWeight := tr.totalWeight + dv.weight
                        currentCapacity := tr.currentCapacity - dv.weight })
            deliveries := updA sys.deliveries did (fun dvv =>
              { dvv with status := "in_progress"
                         assignedTruck := some tid }) }
        let sys2 : RSys :=
          { sys1 with trucks := updA sys1.trucks tid (fun tr =>
              { tr with currentRoute := opt (optimizeStops sys1 tid did) }) }
        (acc.1, sys2)

/-- Embedding of `DynamicRoutingSystem.handle_truck_breakdown`: collect the broken
truck's deliveries, reset them to pending/unassigned, delete the truck,
sort the detached tasks by weight descending, then try to rebind each;
return the single overall boolean (`success`) together with the final
registry state. -/
def handleTruckBreakdown (dcalc : Point → Point → ℚ)
    (opt : List Point → List Point) (sys : RSys) (truckId : String) :
    Bool × RSys :=
  match lookupA sys.trucks truckId with
  | none => (false, sys)
  | some tr =>
    let failed := tr.deliveries
    let objs := failed.filterMap (fun did =>
      (lookupA sys.deliveries did).map (fun dv => (did, dv.weight)))
    let sys1 := resetDeliveries sys failed
    let sys2 := removeTruck sys1 truckId
    (sortByWeightDesc objs).foldl (reassignOne dcalc opt) (true, sys2)

/-- The two capacity checks a truck passes before `find_suitable_truck`
may select it, and hence before `assign_delivery` may bind a task to it. -/
def suitableInv (dv : DeliveryR) (trucks0 : List (String × TruckR))
    (o : Option String) : Prop :=
  o = none ∨ ∃ tid tr, o = some tid ∧ (tid, tr) ∈ trucks0 ∧
    tr.totalWeight + dv.weight ≤ tr.maxCapacity ∧
    dv.weight ≤ tr.currentCapacity

/-- The outcome `handle_truck_breakdown` promises for each task the
broken vehicle owned: afterwards it is either pending with no owner, or
in progress and bound to a different, still-registered truck whose task
list contains it. -/
def taskSafe (post : RSys) (brokenId did : String) : Prop :=
  ∃ dv, lookupA post.deliveries did = some dv ∧
    ((dv.status = "pending" ∧ dv.assignedTruck = none) ∨
     (dv.status = "in_progress" ∧ ∃ tid tr, dv.assignedTruck = some tid ∧
       tid ≠ brokenId ∧ lookupA post.trucks tid = some tr ∧
       did ∈ tr.deliveries))

/-- The field reset applied by step 1 of `handle_truck_breakdown`. -/
def resetDV (dv : DeliveryR) : DeliveryR :=
  { dv with status := "pending", assignedTruck := none }

/-- A registry with a to-be-broken truck B owning one delivery and a
spare truck T2 with ample capacity. -/
def demoSysBreak : RSys :=
  { trucks := [
      ("B",
        { maxCapacity := 10
          currentCapacity := 6
          currentLocation := (0, 0)
          currentRoute := []
          deliveries := ["D1"]
          totalWeight := 4 }),
      ("T2",
        { maxCapacity := 10
          currentCapacity := 10
          currentLocation := (1, 0)
          currentRoute := []
          deliveries := []
          totalWeight := 0 })]
    deliveries := [("D1",
      { pickup := (2, 0)
        dropoff := (3, 0)
        weight := 4
        status := "in_progress"
        assignedTruck := some "B"
        hasTimeWindow := false })] }

/-- Broken truck owning a reboundable 8 kg task D1 and an unplaceable
20 kg task D2; the spare truck T2 has capacity for only the light one. -/
def demoAmbA : RSys :=
  { trucks := [
      ("B",
        { maxCapacity := 50
          currentCapacity := 22
          currentLocation := (0, 0)
          currentRoute := []
          deliveries := ["D1", "D2"]
          totalWeight := 28 }),
      ("T2",
        { maxCapacity := 10
          currentCapacity := 9
          currentLocation := (1, 0)
          currentRoute := []
          deliveries := []
          totalWeight := 1 })]
    deliveries := [
      ("D1",
        { pickup := (2, 0)
          dropoff := (3, 0)
          weight := 8
          status := "in_progress"
          assignedTruck := some "B"
          hasTimeWindow := false }),
      ("D2",
        { pickup := (2, 0)
          dropoff := (3, 0)
          weight := 20
          status := "in_progress"
          assignedTruck := some "B"
          hasTimeWindow := false })] }

/-- Same scenario with the task weights swapped: now D1 is the
unplaceable 20 kg task and D2 the reboundable 8 kg one. -/
def demoAmbB : RSys :=
  { trucks := [
      ("B",
        { maxCapacity := 50
          currentCapacity := 22
          currentLocation := (0, 0)
          currentRoute := []
          deliveries := ["D1", "D2"]
          totalWeight := 28 }),
      ("T2",
        { maxCapacity := 10
          currentCapacity := 9
          currentLocation := (1, 0)
          currentRoute := []
          deliveries := []
          totalWeight := 1 })]
    deliveries := [
      ("D1",
        { pickup := (2, 0)
          dropoff := (3, 0)
          weight := 20
          status := "in_progress"
          assignedTruck := some "B"
          hasTimeWindow := false }),
      ("D2",
        { pickup := (2, 0)
          dropoff := (3, 0)
          weight := 8
          status := "in_progress"
          assignedTruck := some "B"
          hasTimeWindow := false })] }

def demoSys : RSys :=
  { trucks := [("T1",
      { maxCapacity := 10
        currentCapacity := 10
        currentLocation := (0, 0)
        currentRoute := []
        deliveries := []
        totalWeight := 0 })]
    deliveries := [("D1",
      { pickup := (1, 0)
        dropoff := (2, 0)
        weight := 4
        status := "pending"
        assignedTruck := none
        hasTimeWindow := false })] }

/-- A registry in which one truck owns two in-progress deliveries whose
dropoffs coincide with the truck's next reported location. -/
def demoSysTwo : RSys :=
  { trucks := [("T",
      { maxCapacity := 10
        currentCapacity := 2
        currentLocation := (0, 0)
        currentRoute := []
        deliveries := ["D1", "D2"]
        totalWeight := 8 })]
    deliveries := [
      ("D1",
        { pickup := (0, 0)
          dropoff := (5, 5)
          weight := 4
          status := "in_progress"
          assignedTruck := some "T"
          hasTimeWindow := false }),
      ("D2",
        { pickup := (0, 0)
          dropoff := (5, 5)
          weight := 4
          status := "in_progress"
          assignedTruck := some "T"
          hasTimeWindow := false })] }

/-! ## `deliveryManagementSystem.py`: `assign_new_order` -/

/-- The `dict.fromkeys` de-duplication: keep the first occurrence of each
point, preserving order. -/
def dedupAux : List Point → List Point → List Point
  | [], _ => []
  | x :: xs, seen =>
    if x ∈ seen then dedupAux xs seen else x :: dedupAux xs (seen ++ [x])

def dedupFirst (l : List Point) : List Point := dedupAux l []

/-- The route-acceptance gate of `assign_new_order` for one candidate
truck: the re-optimized route over the truck's current route plus the new
order's pickup and dropoff (duplicates removed) is accepted iff its
closed-tour length is at most 1.2× the current route's length, or the
current route's length is 0. -/
def routeGate (d : Point → Point → ℚ) (opt : List Point → List Point)
    (o : OrderR) (t : OTruck) : Prop :=
  totalRouteDistance d
      (opt (dedupFirst (t.route ++ [o.pickup, o.dropoff]))) true ≤
    totalRouteDistance d t.route true * (6 / 5) ∨
  totalRouteDistance d t.route true = 0

instance (d : Point → Point → ℚ) (opt : List Point → List Point)
    (o : OrderR) (t : OTruck) : Decidable (routeGate d opt o t) := by
  unfold routeGate
  infer_instance

/-- The candidate-evaluation loop of `assign_new_order`: for each
candidate (tracked with its position in `self.trucks`, since the Python
loop mutates the truck object in place), recompute the route and accept
the first candidate passing the gate: `truck.add_order(order)`, install
the optimized route, return.  Otherwise try the next candidate; with no
candidate left the order is unassigned and the fleet untouched. -/
def assignLoop (d : Point → Point → ℚ) (opt : List Point → List Point)
    (o : OrderR) (trucks : List OTruck) :
    List (Nat × OTruck) → List OTruck × Option Nat
  | [] => (trucks, none)
  | (i, t) :: rest =>
    let newStops := dedupFirst (t.route ++ [o.pickup, o.dropoff])
    let optimizedRoute := opt newStops
    let currentDistance := totalRouteDistance d t.route true
    let newDistance := totalRouteDistance d optimizedRoute true
    if newDistance ≤ currentDistance * (6 / 5) ∨ currentDistance = 0 then
      (trucks.set i { t.addOrder o with route := optimizedRoute }, some i)
    else assignLoop d opt o trucks rest

/-- Embedding of `DeliveryManagementSystem.assign_new_order`: filter the candidate
trucks by remaining capacity, then evaluate them in order.  The CIACO
recomputation is the oracle `opt`. -/
def assignNewOrder (d : Point → Point → ℚ) (opt : List Point → List Point)
    (trucks : List OTruck) (o : OrderR) : List OTruck × Option Nat :=
  assignLoop d opt o trucks
    ((trucks.enum).filter (fun p => decide (o.weight ≤ p.2.remainingCapacity)))

/-- The capacity invariant of `Truck`: remaining capacity equals maximum
capacity minus the summed weights of the assigned orders. -/
def OTruck.capacityInvariant (t : OTruck) : Prop :=
  t.remainingCapacity =
    t.maxCapacity - (t.assignedOrders.map (fun o => o.weight)).sum

/-! ## Theorems -/

theorem tourIndicesAux_perm (pick : Nat → List Nat → Nat)
    (hpick : ∀ c l, l ≠ [] → pick c l ∈ l) :
    ∀ (fuel : Nat) (c : Nat) (l : List Nat), l.length ≤ fuel →
      (tourIndicesAux pick fuel c l).Perm l := by
  intro fuel
  induction fuel with
  | zero =>
    intro c l hl
    have hnl : l = [] := by
      cases l with
      | nil => rfl
      | cons a t => exact absurd hl (by simp)
    rw [hnl]
    exact List.Perm.refl _
  | succ fuel ih =>
    intro c l hl
    rw [tourIndicesAux]
    by_cases hnil : l = []
    · rw [if_pos hnil, hnil]
    · have hmem : pick c l ∈ l := hpick c l hnil
      rw [if_neg hnil]
      show (if pick c l ∈ l then
          pick c l :: tourIndicesAux pick fuel (pick c l) (l.erase (pick c l))
        else []).Perm l
      rw [if_pos hmem]
      have hle : (l.erase (pick c l)).length ≤ fuel := by
        rw [List.length_erase_of_mem hmem]
        omega
      exact ((ih (pick c l) _ hle).cons (pick c l)).trans
        (List.perm_cons_erase hmem).symm

theorem tourIndices_perm (pick : Nat → List Nat → Nat)
    (hpick : ∀ c l, l ≠ [] → pick c l ∈ l) :
    ∀ (l : List Nat) (c : Nat), (tourIndices pick c l).Perm l :=
  fun l c => tourIndicesAux_perm pick hpick l.length c l (Nat.le_refl _)

theorem map_getD_range (l : List Point) :
    (List.range l.length).map (fun i => l.getD i (0, 0)) = l := by
  induction l with
  | nil => simp
  | cons x xs ih =>
    rw [show (x :: xs).length = xs.length + 1 from rfl,
      List.range_succ_eq_map, List.map_cons, List.map_map]
    refine congrArg (x :: ·) ?_
    rw [show ((fun i => (x :: xs).getD i (0, 0)) ∘ Nat.succ) =
      (fun i => xs.getD i (0, 0)) from rfl]
    exact ih

theorem range_eq_cons_drop (n : Nat) (hn : 0 < n) :
    List.range n = 0 :: (List.range n).drop 1 := by
  obtain ⟨m, rfl⟩ := Nat.exists_eq_add_of_lt hn
  rw [Nat.zero_add, List.range_succ_eq_map]
  simp

theorem constructSolution_false_eq (stops : List Point)
    (pick : Nat → List Nat → Nat) :
    constructSolution stops false pick =
      (0 :: tourIndices pick 0 ((List.range stops.length).drop 1)).map
        (fun i => stops.getD i (0, 0)) := rfl

theorem constructSolution_true_eq (stops : List Point)
    (pick : Nat → List Nat → Nat) :
    constructSolution stops true pick =
      ((0 :: tourIndices pick 0 ((List.range stops.length).drop 1)).map
        (fun i => stops.getD i (0, 0))) ++ [stops.getD 0 (0, 0)] := rfl

theorem goodRoute_false_iff (stops : List Point) (r : List Point) :
    goodRoute stops false r ↔
      r.Perm stops ∧ r.headD (0, 0) = stops.headD (0, 0) := Iff.rfl

theorem goodRoute_true_iff (stops : List Point) (r : List Point) :
    goodRoute stops true r ↔
      ∃ body, r = body ++ [stops.headD (0, 0)] ∧ body.Perm stops ∧
        body.headD (0, 0) = stops.headD (0, 0) := Iff.rfl

theorem constructSolution_good (stops : List Point) (returnToDepot : Bool)
    (pick : Nat → List Nat → Nat) (hs : stops ≠ [])
    (hpick : ∀ c l, l ≠ [] → pick c l ∈ l) :
    goodRoute stops returnToDepot
      (constructSolution stops returnToDepot pick) := by
  obtain ⟨p0, rest, rfl⟩ : ∃ p0 rest, stops = p0 :: rest := by
    cases stops with
    | nil => exact absurd rfl hs
    | cons a l => exact ⟨a, l, rfl⟩
  have hlen : 0 < (p0 :: rest).length := Nat.succ_pos _
  have hperm :
      ((0 :: tourIndices pick 0 ((List.range (p0 :: rest).length).drop 1)).map
        (fun i => (p0 :: rest).getD i (0, 0))).Perm (p0 :: rest) := by
    have h1 := tourIndices_perm pick hpick
      ((List.range (p0 :: rest).length).drop 1) 0
    have h2 : ((0 : Nat) :: tourIndices pick 0
        ((List.range (p0 :: rest).length).drop 1)).Perm
        (List.range (p0 :: rest).length) := by
      have := h1.cons 0
      rwa [← range_eq_cons_drop (p0 :: rest).length hlen] at this
    have h3 := h2.map (fun i => (p0 :: rest).getD i (0, 0))
    rwa [map_getD_range] at h3
  have hhead :
      ((0 :: tourIndices pick 0 ((List.range (p0 :: rest).length).drop 1)).map
        (fun i => (p0 :: rest).getD i (0, 0))).headD (0, 0) =
        (p0 :: rest).headD (0, 0) := rfl
  cases returnToDepot with
  | false =>
    rw [goodRoute_false_iff, constructSolution_false_eq]
    exact ⟨hperm, hhead⟩
  | true =>
    rw [goodRoute_true_iff, constructSolution_true_eq]
    exact ⟨_, rfl, hperm, hhead⟩

theorem antStep_good (d : Point → Point → ℚ) (stops : List Point)
    (cfg : CiacoConfig) (pick : Nat → List Nat → Nat) (hs : stops ≠ [])
    (hpick : ∀ c l, l ≠ [] → pick c l ∈ l) (s : CiacoState)
    (hI : s.bestDistance = none ∨ goodState stops cfg.returnToDepot s) :
    goodState stops cfg.returnToDepot (antStep d stops cfg pick s) := by
  unfold antStep
  by_cases h : distLt (totalRouteDistance d
      (constructSolution stops cfg.returnToDepot pick) cfg.returnToDepot)
      s.bestDistance = true
  · rw [if_pos h]
    exact ⟨_, rfl, constructSolution_good stops cfg.returnToDepot pick hs hpick⟩
  · rw [if_neg h]
    rcases hI with hnone | hgood
    · exact absurd (by rw [hnone]; rfl) h
    · exact hgood

theorem foldl_antStep_pres (d : Point → Point → ℚ) (stops : List Point)
    (cfg : CiacoConfig) (f : Nat → Nat → List Nat → Nat) (hs : stops ≠ [])
    (hf : ∀ a c l, l ≠ [] → f a c l ∈ l) (l : List Nat) (s : CiacoState)
    (h : goodState stops cfg.returnToDepot s) :
    goodState stops cfg.returnToDepot
      (l.foldl (fun s2 ant => antStep d stops cfg (f ant) s2) s) := by
  induction l generalizing s with
  | nil => exact h
  | cons a t ih =>
    exact ih _ (antStep_good d stops cfg (f a) hs (hf a) s (Or.inr h))

theorem foldl_antStep_start (d : Point → Point → ℚ) (stops : List Point)
    (cfg : CiacoConfig) (f : Nat → Nat → List Nat → Nat) (hs : stops ≠ [])
    (hf : ∀ a c l, l ≠ [] → f a c l ∈ l) (l : List Nat) (hl : l ≠ [])
    (s : CiacoState)
    (hI : s.bestDistance = none ∨ goodState stops cfg.returnToDepot s) :
    goodState stops cfg.returnToDepot
      (l.foldl (fun s2 ant => antStep d stops cfg (f ant) s2) s) := by
  cases l with
  | nil => exact absurd rfl hl
  | cons a t =>
    exact foldl_antStep_pres d stops cfg f hs hf t _
      (antStep_good d stops cfg (f a) hs (hf a) s hI)

theorem acoLoop_good (d : Point → Point → ℚ)
    (picks : Nat → Nat → Nat → List Nat → Nat) (cfg : CiacoConfig)
    (stops : List Point) (st : CiacoState) (hs : stops ≠ [])
    (hpick : ∀ it ant c l, l ≠ [] → picks it ant c l ∈ l)
    (hit : 0 < cfg.iterations) (hants : 0 < cfg.numAnts)
    (hI : st.bestDistance = none ∨ goodState stops cfg.returnToDepot st) :
    goodState stops cfg.returnToDepot (acoLoop d picks cfg stops st) := by
  unfold acoLoop
  have hantl : List.range cfg.numAnts ≠ [] := by
    intro hcon
    have : (0 : Nat) ∈ List.range cfg.numAnts := List.mem_range.mpr hants
    rw [hcon] at this
    exact absurd this (List.not_mem_nil 0)
  have roundPres : ∀ (l : List Nat) (s : CiacoState),
      goodState stops cfg.returnToDepot s →
      goodState stops cfg.returnToDepot
        (l.foldl (fun s it =>
          (List.range cfg.numAnts).foldl
            (fun s2 ant => antStep d stops cfg (picks it ant) s2) s) s) := by
    intro l
    induction l with
    | nil => exact fun s h => h
    | cons a t ih =>
      intro s h
      rw [List.foldl_cons]
      exact ih _
        (foldl_antStep_pres d stops cfg (picks a) hs (hpick a)
          (List.range cfg.numAnts) s h)
  cases hr : List.range cfg.iterations with
  | nil =>
    exfalso
    have : (0 : Nat) ∈ List.range cfg.iterations := List.mem_range.mpr hit
    rw [hr] at this
    exact absurd this (List.not_mem_nil 0)
  | cons it0 rest =>
    rw [List.foldl_cons]
    exact roundPres rest _
      (foldl_antStep_start d stops cfg (picks it0) hs (hpick it0)
        (List.range cfg.numAnts) hantl st hI)

theorem headD_mem_of_ne_nil (l : List Nat) (h : l ≠ []) : l.headD 0 ∈ l := by
  cases l with
  | nil => exact absurd rfl h
  | cons a t => exact List.mem_cons_self a t

/-- C1: for every list of pairwise-distinct stops of size greater than 2,
`optimize_route` on a freshly constructed optimizer (validated
`num_ants > 0`, `iterations > 0`; `best_route = None`,
`best_distance = inf`) returns a permutation of the input stop list
starting at the depot (input index 0), with the depot appended once more
at the end when `return_to_depot` is enabled — no stop invented or
dropped.  Holds for every distance function and every sampling oracle
that, like the source's resampling loop, always lands on an unvisited
index. -/
theorem optimizeRoute_fresh_permutation
    (d : Point → Point → ℚ) (picks : Nat → Nat → Nat → List Nat → Nat)
    (cfg : CiacoConfig) (stops : List Point)
    (hlen : 2 < stops.length) (hdistinct : stops.Nodup)
    (hpick : ∀ it ant c l, l ≠ [] → picks it ant c l ∈ l)
    (hit : 0 < cfg.iterations) (hants : 0 < cfg.numAnts) :
    ∃ r st',
      optimizeRoute d picks cfg CiacoState.fresh stops = .ok (some r, st') ∧
        goodRoute stops cfg.returnToDepot r := by
  have hs : stops ≠ [] := by
    intro h
    rw [h] at hlen
    exact absurd hlen (by decide)
  obtain ⟨r, hr, hgr⟩ := acoLoop_good d picks cfg stops CiacoState.fresh hs
    hpick hit hants (Or.inl rfl)
  refine ⟨r, acoLoop d picks cfg stops CiacoState.fresh, ?_, hgr⟩
  unfold optimizeRoute
  rw [if_neg hs, if_neg (by omega : ¬stops.length ≤ 2)]
  show Except.ok ((acoLoop d picks cfg stops CiacoState.fresh).bestRoute,
    acoLoop d picks cfg stops CiacoState.fresh) = _
  rw [hr]

/-- Witness for C1: three distinct collinear stops, one ant, one round,
head-of-list oracle. -/
theorem optimizeRoute_fresh_permutation_witness :
    ∃ r st',
      optimizeRoute (fun _ _ => 0) (fun _ _ _ l => l.headD 0) ⟨1, 1, true⟩
          CiacoState.fresh
          [((0 : ℚ), (0 : ℚ)), ((1 : ℚ), (0 : ℚ)), ((2 : ℚ), (0 : ℚ))] =
        .ok (some r, st') ∧
      goodRoute [((0 : ℚ), (0 : ℚ)), ((1 : ℚ), (0 : ℚ)), ((2 : ℚ), (0 : ℚ))]
        true r :=
  optimizeRoute_fresh_permutation (fun _ _ => 0) (fun _ _ _ l => l.headD 0)
    ⟨1, 1, true⟩ _ (by decide) (by decide)
    (fun _ _ _ l h => headD_mem_of_ne_nil l h) (by decide) (by decide)

/-- C6 (failing run): `CIACO` retains `best_route`/`best_distance` across
`optimize_route` calls.  A first call on stops A = [(0,0),(1,0),(2,0)]
records best distance 4; a second call on the SAME instance with stops
B = [(0,0),(10,0),(20,0)] finds only candidate tours of length 40, never
beats the stale best, and returns the FIRST call's route — containing the
stop (1,0), which is not in B — whereas a freshly constructed,
identically-configured optimizer on B returns a permutation of B.  This
contradicts the claim that the second call (under identical random draws)
equals a fresh call on B. -/
theorem ciaco_cross_call_state_leak :
    optimizeRoute dLine (fun _ _ _ l => l.headD 0) ⟨1, 1, true⟩
        CiacoState.fresh
        [((0 : ℚ), (0 : ℚ)), ((1 : ℚ), (0 : ℚ)), ((2 : ℚ), (0 : ℚ))] =
      .ok (some [((0 : ℚ), (0 : ℚ)), ((1 : ℚ), (0 : ℚ)), ((2 : ℚ), (0 : ℚ)),
          ((0 : ℚ), (0 : ℚ))],
        ⟨some [((0 : ℚ), (0 : ℚ)), ((1 : ℚ), (0 : ℚ)), ((2 : ℚ), (0 : ℚ)),
          ((0 : ℚ), (0 : ℚ))], some 4⟩) ∧
    optimizeRoute dLine (fun _ _ _ l => l.headD 0) ⟨1, 1, true⟩
        ⟨some [((0 : ℚ), (0 : ℚ)), ((1 : ℚ), (0 : ℚ)), ((2 : ℚ), (0 : ℚ)),
          ((0 : ℚ), (0 : ℚ))], some 4⟩
        [((0 : ℚ), (0 : ℚ)), ((10 : ℚ), (0 : ℚ)), ((20 : ℚ), (0 : ℚ))] =
      .ok (some [((0 : ℚ), (0 : ℚ)), ((1 : ℚ), (0 : ℚ)), ((2 : ℚ), (0 : ℚ)),
          ((0 : ℚ), (0 : ℚ))],
        ⟨some [((0 : ℚ), (0 : ℚ)), ((1 : ℚ), (0 : ℚ)), ((2 : ℚ), (0 : ℚ)),
          ((0 : ℚ), (0 : ℚ))], some 4⟩) ∧
    optimizeRoute dLine (fun _ _ _ l => l.headD 0) ⟨1, 1, true⟩
        CiacoState.fresh
        [((0 : ℚ), (0 : ℚ)), ((10 : ℚ), (0 : ℚ)), ((20 : ℚ), (0 : ℚ))] =
      .ok (some [((0 : ℚ), (0 : ℚ)), ((10 : ℚ), (0 : ℚ)), ((20 : ℚ), (0 : ℚ)),
          ((0 : ℚ), (0 : ℚ))],
        ⟨some [((0 : ℚ), (0 : ℚ)), ((10 : ℚ), (0 : ℚ)), ((20 : ℚ), (0 : ℚ)),
          ((0 : ℚ), (0 : ℚ))], some 40⟩) ∧
    ((1 : ℚ), (0 : ℚ)) ∉
      [((0 : ℚ), (0 : ℚ)), ((10 : ℚ), (0 : ℚ)), ((20 : ℚ), (0 : ℚ))] := by
  refine ⟨?_, ?_, ?_, by decide⟩ <;>
    norm_num [optimizeRoute, acoLoop, antStep, constructSolution,
      tourIndices, tourIndicesAux, distLt, totalRouteDistance, consecSum,
      dLine, CiacoState.fresh, List.range_succ, List.cons_ne_nil]

theorem foldl_boostPair_eq (pairs : List (Nat × Nat)) :
    ∀ (m : Nat → Nat → ℚ) (i j : Nat),
      (pairs.foldl boostPair m) i j =
        m i j * (3 / 2) ^ (pairs.countP (fun p => pheromoneHit p i j)) := by
  induction pairs with
  | nil => intro m i j; simp
  | cons p ps ih =>
    intro m i j
    rw [List.foldl_cons, ih (boostPair m p) i j, List.countP_cons]
    by_cases h : pheromoneHit p i j = true
    · rw [boostPair, if_pos h, if_pos h, pow_succ]
      ring
    · rw [boostPair, if_neg h, if_neg h, Nat.add_zero]

theorem pheromoneHit_iff (i j : Nat) (hij : i ≠ j) (p : Nat × Nat) :
    pheromoneHit p i j = true ↔ p = (i, j) ∨ p = (j, i) := by
  cases p with
  | mk a b =>
    simp only [pheromoneHit, Bool.and_eq_true, Bool.or_eq_true,
      decide_eq_true_eq, Prod.mk.injEq]
    constructor
    · rintro ⟨hab, ⟨ha, hb⟩ | ⟨ha, hb⟩⟩
      · exact Or.inl ⟨ha.symm, hb.symm⟩
      · exact Or.inr ⟨hb.symm, ha.symm⟩
    · rintro (⟨ha, hb⟩ | ⟨ha, hb⟩)
      · exact ⟨by omega, Or.inl ⟨ha.symm, hb.symm⟩⟩
      · exact ⟨by omega, Or.inr ⟨hb.symm, ha.symm⟩⟩

theorem countP_eqPair_product (c₂ : List Nat) (a b : Nat) :
    ∀ (c₁ : List Nat),
      (c₁.product c₂).countP (fun p => decide (p = (a, b))) =
        c₁.countP (fun x => decide (x = a)) *
          c₂.countP (fun y => decide (y = b)) := by
  intro c₁
  induction c₁ with
  | nil => simp [List.product]
  | cons x xs ih =>
    have hprod : (x :: xs).product c₂ =
        (c₂.map (Prod.mk x)) ++ xs.product c₂ := by
      simp [List.product]
    rw [hprod, List.countP_append, ih, List.countP_cons]
    have hmap : (c₂.map (Prod.mk x)).countP (fun p => decide (p = (a, b))) =
        (if x = a then c₂.countP (fun y => decide (y = b)) else 0) := by
      rw [List.countP_map]
      by_cases hx : x = a
      · subst hx
        rw [if_pos rfl]
        refine List.countP_congr ?_
        intro y _
        show decide ((x, y) = (x, b)) = true ↔ decide (y = b) = true
        simp
      · rw [if_neg hx]
        rw [List.countP_eq_zero]
        intro y _
        show ¬ decide ((x, y) = (a, b)) = true
        simp only [decide_eq_true_eq, Prod.mk.injEq, not_and]
        intro hc
        exact absurd hc hx
    rw [hmap]
    by_cases hx : x = a
    · rw [if_pos hx, show decide (x = a) = true from decide_eq_true hx]
      simp
      ring
    · rw [if_neg hx, show decide (x = a) = false from
        decide_eq_false hx]
      simp

theorem countP_eq_of_nodup (c : List Nat) (hnd : c.Nodup) (a : Nat) :
    c.countP (fun x => decide (x = a)) = if a ∈ c then 1 else 0 := by
  induction c with
  | nil => simp
  | cons y ys ih =>
    rw [List.countP_cons]
    obtain ⟨hy, hys⟩ := List.nodup_cons.mp hnd
    by_cases hya : y = a
    · subst hya
      rw [show decide (y = y) = true from decide_eq_true rfl,
        if_pos (List.mem_cons_self y ys), ih hys, if_neg hy]
      simp
    · rw [show decide (y = a) = false from decide_eq_false hya, ih hys]
      by_cases ha : a ∈ ys
      · rw [if_pos ha, if_pos (List.mem_cons_of_mem y ha)]
        simp
      · rw [if_neg ha, if_neg (show ¬ a ∈ y :: ys from fun hc =>
          (List.mem_cons.mp hc).elim (fun h => hya h.symm) ha)]
        simp

theorem countP_hit_split (i j : Nat) (hij : i ≠ j) (l : List (Nat × Nat)) :
    l.countP (fun p => pheromoneHit p i j) =
      l.countP (fun p => decide (p = (i, j))) +
        l.countP (fun p => decide (p = (j, i))) := by
  induction l with
  | nil => simp
  | cons p ps ih =>
    rw [List.countP_cons, List.countP_cons, List.countP_cons, ih]
    by_cases h1 : p = (i, j)
    · have hh : pheromoneHit p i j = true :=
        (pheromoneHit_iff i j hij p).mpr (Or.inl h1)
      have h2 : ¬ p = (j, i) := by
        rw [h1]
        intro hc
        injection hc with hc1 hc2
        exact hij hc1
      rw [hh, show decide (p = (i, j)) = true from decide_eq_true h1,
        show decide (p = (j, i)) = false from decide_eq_false h2]
      simp
      omega
    · by_cases h2 : p = (j, i)
      · have hh : pheromoneHit p i j = true :=
          (pheromoneHit_iff i j hij p).mpr (Or.inr h2)
        rw [hh, show decide (p = (i, j)) = false from decide_eq_false h1,
          show decide (p = (j, i)) = true from decide_eq_true h2]
        simp
        omega
      · have hh : pheromoneHit p i j = false := by
          by_contra hc
          rw [Bool.not_eq_false] at hc
          exact ((pheromoneHit_iff i j hij p).mp hc).elim h1 h2
        rw [hh, show decide (p = (i, j)) = false from decide_eq_false h1,
          show decide (p = (j, i)) = false from decide_eq_false h2]
        simp

theorem countP_hit_product (c : List Nat) (hnd : c.Nodup) (i j : Nat)
    (hij : i ≠ j) :
    (c.product c).countP (fun p => pheromoneHit p i j) =
      if i ∈ c ∧ j ∈ c then 2 else 0 := by
  rw [countP_hit_split i j hij, countP_eqPair_product,
    countP_eqPair_product, countP_eq_of_nodup c hnd,
    countP_eq_of_nodup c hnd]
  by_cases hi : i ∈ c
  · by_cases hj : j ∈ c
    · rw [if_pos hi, if_pos hj, if_pos ⟨hi, hj⟩]
    · rw [if_pos hi, if_neg hj,
        if_neg (show ¬ (i ∈ c ∧ j ∈ c) from fun hc => hj hc.2)]
  · rw [if_neg hi,
      if_neg (show ¬ (i ∈ c ∧ j ∈ c) from fun hc => hi hc.1)]
    simp

theorem boostCluster_entry (m : Nat → Nat → ℚ) (c : List Nat)
    (hnd : c.Nodup) (i j : Nat) (hij : i ≠ j) :
    boostCluster m c i j =
      m i j * (if i ∈ c ∧ j ∈ c then (9 / 4 : ℚ) else 1) := by
  rw [boostCluster, foldl_boostPair_eq, countP_hit_product c hnd i j hij]
  by_cases h : i ∈ c ∧ j ∈ c
  · rw [if_pos h, if_pos h]
    norm_num
  · rw [if_neg h, if_neg h]
    norm_num

theorem boostCluster_diag (m : Nat → Nat → ℚ) (c : List Nat) (i : Nat) :
    boostCluster m c i i = m i i := by
  rw [boostCluster, foldl_boostPair_eq]
  have hz : (c.product c).countP (fun p => pheromoneHit p i i) = 0 := by
    rw [List.countP_eq_zero]
    intro p _
    cases p with
    | mk a b =>
      simp only [pheromoneHit, Bool.and_eq_true, Bool.or_eq_true,
        decide_eq_true_eq, ne_eq]
      omega
  rw [hz]
  simp

theorem sameCluster_cons (c : List Nat) (cs : List (List Nat)) (i j : Nat) :
    sameCluster (c :: cs) i j ↔ (i ∈ c ∧ j ∈ c) ∨ sameCluster cs i j := by
  constructor
  · rintro ⟨c', hc', hi', hj'⟩
    rcases List.mem_cons.mp hc' with h | h
    · exact Or.inl (h ▸ ⟨hi', hj'⟩)
    · exact Or.inr ⟨c', h, hi', hj'⟩
  · rintro (⟨hi', hj'⟩ | ⟨c', hc', hi', hj'⟩)
    · exact ⟨c, List.mem_cons_self c cs, hi', hj'⟩
    · exact ⟨c', List.mem_cons_of_mem c hc', hi', hj'⟩

theorem foldl_boostCluster_entry (i j : Nat) (hij : i ≠ j) :
    ∀ (clusters : List (List Nat)),
      clusters.Pairwise (fun c d => ∀ x, x ∈ c → x ∉ d) →
      (∀ c ∈ clusters, c.Nodup) →
      ∀ (m : Nat → Nat → ℚ),
        (clusters.foldl boostCluster m) i j =
          m i j * (if sameCluster clusters i j then (9 / 4 : ℚ) else 1) := by
  intro clusters
  induction clusters with
  | nil =>
    intro _ _ m
    have : ¬ sameCluster [] i j := by rintro ⟨c', hc', _, _⟩; cases hc'
    simp [this]
  | cons c cs ih =>
    intro hdisj hnd m
    obtain ⟨hdc, hdcs⟩ := List.pairwise_cons.mp hdisj
    rw [List.foldl_cons,
      ih hdcs (fun c' hc' => hnd c' (List.mem_cons_of_mem c hc')) _,
      boostCluster_entry m c (hnd c (List.mem_cons_self c cs)) i j hij]
    by_cases h1 : i ∈ c ∧ j ∈ c
    · have h2 : ¬ sameCluster cs i j := by
        rintro ⟨c', hc', hi', _⟩
        exact (hdc c' hc' i h1.1) hi'
      have h3 : sameCluster (c :: cs) i j :=
        (sameCluster_cons c cs i j).mpr (Or.inl h1)
      rw [if_pos h1, if_neg h2, if_pos h3]
      ring
    · by_cases h2 : sameCluster cs i j
      · have h3 : sameCluster (c :: cs) i j :=
          (sameCluster_cons c cs i j).mpr (Or.inr h2)
        rw [if_neg h1, if_pos h2, if_pos h3]
        ring
      · have h3 : ¬ sameCluster (c :: cs) i j := fun hc =>
          (sameCluster_cons c cs i j).mp hc |>.elim h1 h2
        rw [if_neg h1, if_neg h2, if_neg h3]
        ring

theorem foldl_boostCluster_diag (i : Nat) :
    ∀ (clusters : List (List Nat)) (m : Nat → Nat → ℚ),
      (clusters.foldl boostCluster m) i i = m i i := by
  intro clusters
  induction clusters with
  | nil => intro m; rfl
  | cons c cs ih =>
    intro m
    rw [List.foldl_cons, ih, boostCluster_diag]

/-- C7 (counterexample): with `initial_pheromone = 1` and the genuine
partition `[[0,1],[2]]` of three stops, the same-cluster entry `(0,1)` of
the initialized pheromone matrix is `9/4` — the ×1.5 boost was applied
twice (once when the loop visits `(0,1)` and once when it visits `(1,0)`,
because the body multiplies both `matrix[i][j]` and `matrix[j][i]`) — and
not `1 × 1.5` as the claim states. -/
theorem initPheromones_double_boost_cex :
    initPheromones 1 [[0, 1], [2]] 0 1 ≠ 1 * (3 / 2 : ℚ) ∧
      initPheromones 1 [[0, 1], [2]] 0 1 = (9 / 4 : ℚ) := by
  have hval : initPheromones 1 [[0, 1], [2]] 0 1 = (9 / 4 : ℚ) := by
    norm_num [initPheromones, boostCluster, boostPair, pheromoneHit,
      List.product]
  exact ⟨by rw [hval]; norm_num, hval⟩

/-- C7 (amended): immediately after pheromone initialization, for any
family of pairwise-disjoint duplicate-free clusters: every diagonal entry
is 0; every off-diagonal entry whose indices lie in no common cluster
equals `initial_pheromone`; and every off-diagonal entry whose two
distinct indices lie in the same cluster equals
`initial_pheromone × 1.5 × 1.5` — the boost is applied twice per
unordered pair, once via the ordered pair `(i,j)` and once via `(j,i)`,
because the loop body multiplies both symmetric entries each time. -/
theorem initPheromones_entries (τ0 : ℚ) (clusters : List (List Nat))
    (hdisj : clusters.Pairwise (fun c d => ∀ x, x ∈ c → x ∉ d))
    (hnd : ∀ c ∈ clusters, c.Nodup) (i j : Nat) :
    (i = j → initPheromones τ0 clusters i j = 0) ∧
    (i ≠ j → sameCluster clusters i j →
      initPheromones τ0 clusters i j = τ0 * (3 / 2) * (3 / 2)) ∧
    (i ≠ j → ¬ sameCluster clusters i j →
      initPheromones τ0 clusters i j = τ0) := by
  refine ⟨?_, ?_, ?_⟩
  · intro hij
    subst hij
    rw [initPheromones, foldl_boostCluster_diag]
    simp
  · intro hij hsame
    rw [initPheromones, foldl_boostCluster_entry i j hij clusters hdisj hnd,
      if_pos hsame, if_neg hij]
    ring
  · intro hij hsame
    rw [initPheromones, foldl_boostCluster_entry i j hij clusters hdisj hnd,
      if_neg hsame, if_neg hij]
    ring

/-- Witness for the amended C7 at a concrete partition: with
`initial_pheromone = 2`, the same-cluster entry `(0,1)` equals
`2 × 1.5 × 1.5`. -/
theorem initPheromones_entries_witness :
    initPheromones 2 [[0, 1], [2]] 0 1 = 2 * (3 / 2) * (3 / 2) :=
  (initPheromones_entries 2 [[0, 1], [2]]
    (by decide) (by decide) 0 1).2.1 (by decide)
    ⟨[0, 1], by decide, by decide, by decide⟩

theorem lookupA_updA_self {α : Type} (m : List (String × α)) (k : String)
    (f : α → α) : lookupA (updA m k f) k = (lookupA m k).map f := by
  induction m with
  | nil => rfl
  | cons p rest ih =>
    by_cases h : p.1 = k
    · simp [updA, lookupA, h]
    · simp [updA, lookupA, h, ih]

theorem lookupA_updA_ne {α : Type} (m : List (String × α)) (k k' : String)
    (f : α → α) (h : k' ≠ k) :
    lookupA (updA m k f) k' = lookupA m k' := by
  induction m with
  | nil => rfl
  | cons p rest ih =>
    by_cases h1 : p.1 = k
    · have h2 : ¬ p.1 = k' := fun hc => h (hc ▸ h1)
      simp [updA, lookupA, h1, h2, Ne.symm h, ih]
    · by_cases h2 : p.1 = k'
      · simp [updA, lookupA, h1, h2, h]
      · simp [updA, lookupA, h1, h2, ih]

theorem keys_updA {α : Type} (m : List (String × α)) (k : String)
    (f : α → α) : (updA m k f).map Prod.fst = m.map Prod.fst := by
  induction m with
  | nil => rfl
  | cons p rest ih =>
    by_cases h : p.1 = k <;> simp [updA, h, ih]

theorem lookupA_isSome_iff {α : Type} (m : List (String × α)) (k : String) :
    (lookupA m k).isSome ↔ k ∈ m.map Prod.fst := by
  induction m with
  | nil => simp [lookupA]
  | cons p rest ih =>
    by_cases h : p.1 = k
    · simp [lookupA, h]
    · rw [lookupA, if_neg h, List.map_cons]
      constructor
      · intro hs
        exact List.mem_cons_of_mem _ (ih.mp hs)
      · intro hm
        rcases List.mem_cons.mp hm with h1 | h1
        · exact absurd h1.symm h
        · exact ih.mpr h1

theorem mem_of_lookupA {α : Type} (m : List (String × α)) (k : String)
    (v : α) (h : lookupA m k = some v) : (k, v) ∈ m := by
  induction m with
  | nil => exact absurd h (by simp [lookupA])
  | cons p rest ih =>
    by_cases h1 : p.1 = k
    · rw [lookupA, if_pos h1] at h
      injection h with h2
      exact List.mem_cons.mpr (Or.inl (by rw [← h1, ← h2]))
    · rw [lookupA, if_neg h1] at h
      exact List.mem_cons.mpr (Or.inr (ih h))

theorem lookupA_of_mem_nodup {α : Type} (m : List (String × α))
    (hnd : (m.map Prod.fst).Nodup) (k : String) (v : α)
    (h : (k, v) ∈ m) : lookupA m k = some v := by
  induction m with
  | nil => cases h
  | cons p rest ih =>
    rw [List.map_cons, List.nodup_cons] at hnd
    rcases List.mem_cons.mp h with h1 | h1
    · rw [← h1, lookupA, if_pos rfl]
    · have hk : p.1 ≠ k := by
        intro hc
        exact hnd.1 (hc ▸ List.mem_map.mpr ⟨(k, v), h1, rfl⟩)
      rw [lookupA, if_neg hk]
      exact ih hnd.2 h1

theorem findFold_inv (dcalc : Point → Point → ℚ)
    (canMeet : String → String → Bool) (deliveryId : String)
    (dv : DeliveryR) (trucks0 : List (String × TruckR)) :
    ∀ (l : List (String × TruckR)) (acc : Option String × Option ℚ),
      (∀ p ∈ l, p ∈ trucks0) → suitableInv dv trucks0 acc.1 →
      suitableInv dv trucks0
        ((l.foldl (fun acc p =>
          if p.2.totalWeight + dv.weight > p.2.maxCapacity then acc
          else if p.2.currentCapacity ≥ dv.weight then
            if dv.hasTimeWindow && !(canMeet p.1 deliveryId) then acc
            else
              let dist := dcalc p.2.currentLocation dv.pickup
              if distLt dist acc.2 then (some p.1, some dist) else acc
          else acc) acc).1) := by
  intro l
  induction l with
  | nil => exact fun acc _ hacc => hacc
  | cons p rest ih =>
    intro acc hsub hacc
    rw [List.foldl_cons]
    refine ih _ (fun q hq => hsub q (List.mem_cons_of_mem p hq)) ?_
    by_cases h1 : p.2.totalWeight + dv.weight > p.2.maxCapacity
    · rw [if_pos h1]
      exact hacc
    · rw [if_neg h1]
      by_cases h2 : p.2.currentCapacity ≥ dv.weight
      · rw [if_pos h2]
        by_cases h3 : (dv.hasTimeWindow && !(canMeet p.1 deliveryId)) = true
        · rw [if_pos h3]
          exact hacc
        · rw [if_neg h3]
          by_cases h4 : distLt (dcalc p.2.currentLocation dv.pickup)
              acc.2 = true
          · rw [if_pos h4]
            exact Or.inr ⟨p.1, p.2, rfl,
              hsub p (List.mem_cons_self p rest),
              le_of_not_lt h1, h2⟩
          · rw [if_neg h4]
            exact hacc
      · rw [if_neg h2]
        exact hacc

theorem findSuitableTruck_checks (dcalc : Point → Point → ℚ)
    (canMeet : String → String → Bool) (sys : RSys) (deliveryId : String)
    (dv : DeliveryR) (tid : String)
    (hdv : lookupA sys.deliveries deliveryId = some dv)
    (hfind : findSuitableTruck dcalc canMeet sys deliveryId = some tid) :
    ∃ tr, (tid, tr) ∈ sys.trucks ∧
      tr.totalWeight + dv.weight ≤ tr.maxCapacity ∧
      dv.weight ≤ tr.currentCapacity := by
  simp only [findSuitableTruck, hdv] at hfind
  have hinv := findFold_inv dcalc canMeet deliveryId dv sys.trucks
    sys.trucks ((none : Option String), (none : Option ℚ))
    (fun p hp => hp) (Or.inl rfl)
  rw [hfind] at hinv
  rcases hinv with h | ⟨tid2, tr, heq, hmem, hc1, hc2⟩
  · cases h
  · injection heq with heq2
    exact ⟨tr, heq2 ▸ hmem, hc1, hc2⟩

/-- C2: whenever `assign_delivery` succeeds, the chosen vehicle passed
both capacity checks of `find_suitable_truck` — its current remaining
capacity covered the task weight and its committed weight plus the task
weight did not exceed its maximum capacity — and after the call its
committed weight equals the old committed weight plus the task weight and
still does not exceed its (unchanged) maximum capacity, the task is bound
to it in progress, and every other vehicle's record is untouched. -/
theorem assignDelivery_capacity (dcalc : Point → Point → ℚ)
    (canMeet : String → String → Bool) (opt : List Point → List Point)
    (sys : RSys) (deliveryId : String)
    (hkeys : (sys.trucks.map Prod.fst).Nodup)
    (hres : (assignDelivery dcalc canMeet opt sys deliveryId).1 = true) :
    ∃ tid tr dv,
      lookupA sys.deliveries deliveryId = some dv ∧
      lookupA sys.trucks tid = some tr ∧
      dv.weight ≤ tr.currentCapacity ∧
      tr.totalWeight + dv.weight ≤ tr.maxCapacity ∧
      (∃ tr2, lookupA
          (assignDelivery dcalc canMeet opt sys deliveryId).2.trucks tid =
            some tr2 ∧
        tr2.totalWeight = tr.totalWeight + dv.weight ∧
        tr2.maxCapacity = tr.maxCapacity ∧
        tr2.totalWeight ≤ tr2.maxCapacity) ∧
      (∃ dv2, lookupA
          (assignDelivery dcalc canMeet opt sys deliveryId).2.deliveries
            deliveryId = some dv2 ∧
        dv2.status = "in_progress" ∧ dv2.assignedTruck = some tid) ∧
      (∀ tid2, tid2 ≠ tid →
        lookupA (assignDelivery dcalc canMeet opt sys deliveryId).2.trucks
          tid2 = lookupA sys.trucks tid2) := by
  cases hdv : lookupA sys.deliveries deliveryId with
  | none =>
    simp only [assignDelivery, hdv] at hres
    cases hres
  | some dv =>
    simp only [assignDelivery, hdv] at hres
    by_cases hst : dv.status ≠ "pending"
    · rw [if_pos hst] at hres
      cases hres
    · rw [if_neg hst] at hres
      cases hfind : findSuitableTruck dcalc canMeet sys deliveryId with
      | none =>
        simp only [hfind] at hres
        cases hres
      | some tid =>
        simp only [hfind] at hres
        by_cases hemp : tid = ""
        · rw [if_pos hemp] at hres
          cases hres
        · obtain ⟨tr, hmem, hc1, hc2⟩ :=
            findSuitableTruck_checks dcalc canMeet sys deliveryId dv tid
              hdv hfind
          have htr : lookupA sys.trucks tid = some tr :=
            lookupA_of_mem_nodup sys.trucks hkeys tid tr hmem
          have hpost :
              assignDelivery dcalc canMeet opt sys deliveryId =
                (true,
                  { trucks := updA (updA sys.trucks tid (fun tr =>
                      { tr with
                        deliveries := tr.deliveries ++ [deliveryId]
                        totalWeight := tr.totalWeight + dv.weight
                        currentCapacity := tr.currentCapacity - dv.weight }))
                      tid (fun tr =>
                      { tr with currentRoute := opt (optimizeStops
                          { trucks := updA sys.trucks tid (fun tr =>
                              { tr with
                                deliveries := tr.deliveries ++ [deliveryId]
                                totalWeight := tr.totalWeight + dv.weight
                                currentCapacity :=
                                  tr.currentCapacity - dv.weight })
                            deliveries := updA sys.deliveries deliveryId
                              (fun dvv =>
                              { dvv with status := "in_progress"
                                         assignedTruck := some tid }) }
                          tid deliveryId) })
                    deliveries := updA sys.deliveries deliveryId (fun dvv =>
                      { dvv with status := "in_progress"
                                 assignedTruck := some tid }) }) := by
            simp only [assignDelivery, hdv, hfind]
            rw [if_neg hst, if_neg hemp]
          refine ⟨tid, tr, dv, rfl, htr, hc2, hc1, ?_, ?_, ?_⟩
          · rw [hpost]
            have hlook2 : ∀ (f1 f2 : TruckR → TruckR),
                lookupA (updA (updA sys.trucks tid f1) tid f2) tid =
                  some (f2 (f1 tr)) := by
              intro f1 f2
              rw [lookupA_updA_self, lookupA_updA_self, htr]
              rfl
            exact ⟨_, hlook2 _ _, rfl, rfl, hc1⟩
          · rw [hpost]
            have hlook : lookupA (updA sys.deliveries deliveryId (fun dvv =>
                { dvv with status := "in_progress"
                           assignedTruck := some tid })) deliveryId =
                some { dv with status := "in_progress"
                               assignedTruck := some tid } := by
              rw [lookupA_updA_self, hdv]
              rfl
            exact ⟨_, hlook, rfl, rfl⟩
          · intro tid2 hne
            rw [hpost]
            show lookupA (updA (updA sys.trucks tid _) tid _) tid2 = _
            rw [lookupA_updA_ne _ _ _ _ hne, lookupA_updA_ne _ _ _ _ hne]

theorem resetDeliveries_trucks (ids : List String) :
    ∀ sys : RSys, (resetDeliveries sys ids).trucks = sys.trucks := by
  induction ids with
  | nil => exact fun _ => rfl
  | cons id0 rest ih => exact fun sys => ih _

theorem resetDeliveries_frame (ids : List String) :
    ∀ (sys : RSys) (did : String), did ∉ ids →
      lookupA (resetDeliveries sys ids).deliveries did =
        lookupA sys.deliveries did := by
  induction ids with
  | nil => exact fun _ _ _ => rfl
  | cons id0 rest ih =>
    intro sys did hnot
    have h0 : did ≠ id0 := fun hc => hnot (hc ▸ List.mem_cons_self id0 rest)
    have hr : did ∉ rest := fun hc => hnot (List.mem_cons_of_mem id0 hc)
    show lookupA (resetDeliveries _ rest).deliveries did = _
    rw [ih _ did hr]
    exact lookupA_updA_ne sys.deliveries id0 did _ h0

theorem resetDeliveries_lookup_mem (ids : List String) :
    ∀ (sys : RSys) (did : String), did ∈ ids →
      lookupA (resetDeliveries sys ids).deliveries did =
        (lookupA sys.deliveries did).map resetDV := by
  induction ids with
  | nil => intro _ _ h; cases h
  | cons id0 rest ih =>
    intro sys did hmem
    by_cases hr : did ∈ rest
    · show lookupA (resetDeliveries
        { sys with deliveries := updA sys.deliveries id0 _ } rest).deliveries
          did = _
      rw [ih _ did hr]
      by_cases h0 : did = id0
      · subst h0
        show (lookupA (updA sys.deliveries did resetDV) did).map resetDV = _
        rw [lookupA_updA_self]
        cases lookupA sys.deliveries did with
        | none => rfl
        | some dv => rfl
      · show (lookupA (updA sys.deliveries id0 resetDV) did).map resetDV = _
        rw [lookupA_updA_ne sys.deliveries id0 did _ h0]
    · have h0 : did = id0 := by
        rcases List.mem_cons.mp hmem with h | h
        · exact h
        · exact absurd h hr
      subst h0
      show lookupA (resetDeliveries
        { sys with deliveries := updA sys.deliveries did resetDV }
          rest).deliveries did = _
      rw [resetDeliveries_frame rest _ did hr]
      exact lookupA_updA_self sys.deliveries did resetDV

theorem removeTruck_deliveries (sys : RSys) (tid : String) :
    (removeTruck sys tid).deliveries = sys.deliveries := rfl

theorem removeTruck_not_key (sys : RSys) (tid : String) :
    tid ∉ (removeTruck sys tid).trucks.map Prod.fst := by
  intro hmem
  obtain ⟨p, hp, hfst⟩ := List.mem_map.mp hmem
  have := List.of_mem_filter hp
  rw [decide_eq_true_eq] at this
  exact this hfst

theorem findReassignTruck_mem (dcalc : Point → Point → ℚ) (sys : RSys)
    (did tid : String) (h : findReassignTruck dcalc sys did = some tid) :
    tid ∈ sys.trucks.map Prod.fst := by
  cases hdv : lookupA sys.deliveries did with
  | none =>
    rw [findReassignTruck, hdv] at h
    cases h
  | some dv =>
    simp only [findReassignTruck, hdv] at h
    have main : ∀ (l : List (String × TruckR))
        (acc : Option String × Option ℚ),
        (∀ p ∈ l, p ∈ sys.trucks) →
        (acc.1 = none ∨ ∃ t, acc.1 = some t ∧ t ∈ sys.trucks.map Prod.fst) →
        ((l.foldl (fun acc p =>
          if p.2.currentCapacity ≥ dv.weight * (9 / 10) then
            let dist := dcalc p.2.currentLocation dv.pickup
            if distLt dist acc.2 then (some p.1, some dist) else acc
          else acc) acc).1 = none ∨
          ∃ t, (l.foldl (fun acc p =>
            if p.2.currentCapacity ≥ dv.weight * (9 / 10) then
              let dist := dcalc p.2.currentLocation dv.pickup
              if distLt dist acc.2 then (some p.1, some dist) else acc
            else acc) acc).1 = some t ∧ t ∈ sys.trucks.map Prod.fst) := by
      intro l
      induction l with
      | nil => exact fun acc _ hacc => hacc
      | cons p rest ih =>
        intro acc hsub hacc
        rw [List.foldl_cons]
        refine ih _ (fun q hq => hsub q (List.mem_cons_of_mem p hq)) ?_
        by_cases h1 : p.2.currentCapacity ≥ dv.weight * (9 / 10)
        · rw [if_pos h1]
          by_cases h2 : distLt (dcalc p.2.currentLocation dv.pickup)
              acc.2 = true
          · rw [if_pos h2]
            exact Or.inr ⟨p.1, rfl, List.mem_map.mpr
              ⟨p, hsub p (List.mem_cons_self p rest), rfl⟩⟩
          · rw [if_neg h2]
            exact hacc
        · rw [if_neg h1]
          exact hacc
    have hres := main sys.trucks ((none : Option String), (none : Option ℚ))
      (fun p hp => hp) (Or.inl rfl)
    rw [h] at hres
    rcases hres with hc | ⟨t, ht, hmem⟩
    · cases hc
    · injection ht with ht2
      exact ht2 ▸ hmem

theorem reassignOne_trucks_keys (dcalc : Point → Point → ℚ)
    (opt : List Point → List Point) (acc : Bool × RSys) (obj : String × ℚ) :
    (reassignOne dcalc opt acc obj).2.trucks.map Prod.fst =
      acc.2.trucks.map Prod.fst := by
  cases hfind : findReassignTruck dcalc acc.2 obj.1 with
  | none => simp only [reassignOne, hfind]
  | some tid =>
    by_cases hemp : tid = ""
    · simp only [reassignOne, hfind]
      rw [if_pos hemp]
    · simp only [reassignOne, hfind]
      rw [if_neg hemp]
      cases hdv : lookupA acc.2.deliveries obj.1 with
      | none => simp only [hdv]
      | some dv =>
        simp only [hdv]
        show (updA (updA acc.2.trucks tid _) tid _).map Prod.fst = _
        rw [keys_updA, keys_updA]

theorem reassignOne_deliveries_frame (dcalc : Point → Point → ℚ)
    (opt : List Point → List Point) (acc : Bool × RSys) (obj : String × ℚ)
    (did : String) (hne : did ≠ obj.1) :
    lookupA (reassignOne dcalc opt acc obj).2.deliveries did =
      lookupA acc.2.deliveries did := by
  cases hfind : findReassignTruck dcalc acc.2 obj.1 with
  | none => simp only [reassignOne, hfind]
  | some tid =>
    by_cases hemp : tid = ""
    · simp only [reassignOne, hfind]
      rw [if_pos hemp]
    · simp only [reassignOne, hfind]
      rw [if_neg hemp]
      cases hdv : lookupA acc.2.deliveries obj.1 with
      | none => simp only [hdv]
      | some dv =>
        simp only [hdv]
        exact lookupA_updA_ne acc.2.deliveries obj.1 did _ hne

theorem reassignOne_taskSafe (dcalc : Point → Point → ℚ)
    (opt : List Point → List Point) (brokenId : String)
    (acc : Bool × RSys) (obj : String × ℚ) (did : String)
    (hkey : brokenId ∉ acc.2.trucks.map Prod.fst)
    (hsafe : taskSafe acc.2 brokenId did) :
    taskSafe (reassignOne dcalc opt acc obj).2 brokenId did := by
  obtain ⟨dv, hdv, hcase⟩ := hsafe
  cases hfind : findReassignTruck dcalc acc.2 obj.1 with
  | none =>
    simp only [reassignOne, hfind]
    exact ⟨dv, hdv, hcase⟩
  | some tid =>
    have htidmem : tid ∈ acc.2.trucks.map Prod.fst :=
      findReassignTruck_mem dcalc acc.2 obj.1 tid hfind
    have htidne : tid ≠ brokenId := fun hc => hkey (hc ▸ htidmem)
    by_cases hemp : tid = ""
    · simp only [reassignOne, hfind]
      rw [if_pos hemp]
      exact ⟨dv, hdv, hcase⟩
    · simp only [reassignOne, hfind]
      rw [if_neg hemp]
      cases hdv0 : lookupA acc.2.deliveries obj.1 with
      | none =>
        simp only [hdv0]
        exact ⟨dv, hdv, hcase⟩
      | some dv0 =>
        simp only [hdv0]
        obtain ⟨tr0, htr0⟩ : ∃ tr0, lookupA acc.2.trucks tid = some tr0 := by
          have hs := (lookupA_isSome_iff acc.2.trucks tid).mpr htidmem
          cases hl : lookupA acc.2.trucks tid with
          | none => rw [hl] at hs; cases hs
          | some tr0 => exact ⟨tr0, rfl⟩
        have hlook : ∀ (f1 f2 : TruckR → TruckR),
            lookupA (updA (updA acc.2.trucks tid f1) tid f2) tid =
              some (f2 (f1 tr0)) := by
          intro f1 f2
          rw [lookupA_updA_self, lookupA_updA_self, htr0]
          rfl
        by_cases heq : did = obj.1
        · subst heq
          have hdlook : lookupA (updA acc.2.deliveries obj.1 (fun dvv =>
              { dvv with status := "in_progress"
                         assignedTruck := some tid })) obj.1 =
              some { dv0 with status := "in_progress"
                              assignedTruck := some tid } := by
            rw [lookupA_updA_self, hdv0]
            rfl
          refine ⟨_, hdlook, Or.inr ⟨?_, tid, _, ?_, htidne,
            hlook _ _, ?_⟩⟩
          · rfl
          · rfl
          · show obj.1 ∈ tr0.deliveries ++ [obj.1]
            exact List.mem_append.mpr (Or.inr (List.mem_singleton.mpr rfl))
        · refine ⟨dv, ?_, ?_⟩
          · show lookupA (updA acc.2.deliveries obj.1 _) did = _
            rw [lookupA_updA_ne acc.2.deliveries obj.1 did _ heq]
            exact hdv
          · rcases hcase with hpend | ⟨hst, tid2, tr2, hat, hne2, htr2, hmem2⟩
            · exact Or.inl hpend
            · refine Or.inr ⟨hst, ?_⟩
              by_cases h2 : tid2 = tid
              · subst h2
                have htr02 : tr0 = tr2 := by
                  rw [htr0] at htr2
                  injection htr2
                refine ⟨tid2, _, hat, hne2, hlook _ _, ?_⟩
                show did ∈ tr0.deliveries ++ [obj.1]
                exact List.mem_append.mpr (Or.inl (htr02 ▸ hmem2))
              · refine ⟨tid2, tr2, hat, hne2, ?_, hmem2⟩
                show lookupA (updA (updA acc.2.trucks tid _) tid _) tid2 = _
                rw [lookupA_updA_ne _ _ _ _ h2, lookupA_updA_ne _ _ _ _ h2]
                exact htr2

theorem reassignFold_taskSafe (dcalc : Point → Point → ℚ)
    (opt : List Point → List Point) (brokenId : String) (did : String) :
    ∀ (objs : List (String × ℚ)) (acc : Bool × RSys),
      brokenId ∉ acc.2.trucks.map Prod.fst →
      taskSafe acc.2 brokenId did →
      taskSafe (objs.foldl (reassignOne dcalc opt) acc).2 brokenId did := by
  intro objs
  induction objs with
  | nil => exact fun acc _ h => h
  | cons obj rest ih =>
    intro acc hkey hsafe
    rw [List.foldl_cons]
    refine ih _ ?_ ?_
    · rw [reassignOne_trucks_keys]
      exact hkey
    · exact reassignOne_taskSafe dcalc opt brokenId acc obj did hkey hsafe

theorem reassignOne_deliveries_keys (dcalc : Point → Point → ℚ)
    (opt : List Point → List Point) (acc : Bool × RSys) (obj : String × ℚ) :
    (reassignOne dcalc opt acc obj).2.deliveries.map Prod.fst =
      acc.2.deliveries.map Prod.fst := by
  cases hfind : findReassignTruck dcalc acc.2 obj.1 with
  | none => simp only [reassignOne, hfind]
  | some tid =>
    by_cases hemp : tid = ""
    · simp only [reassignOne, hfind]
      rw [if_pos hemp]
    · simp only [reassignOne, hfind]
      rw [if_neg hemp]
      cases hdv : lookupA acc.2.deliveries obj.1 with
      | none => simp only [hdv]
      | some dv =>
        simp only [hdv]
        show (updA acc.2.deliveries obj.1 _).map Prod.fst = _
        rw [keys_updA]

theorem resetDeliveries_keys (ids : List String) :
    ∀ sys : RSys, (resetDeliveries sys ids).deliveries.map Prod.fst =
      sys.deliveries.map Prod.fst := by
  induction ids with
  | nil => exact fun _ => rfl
  | cons id0 rest ih =>
    intro sys
    show (resetDeliveries _ rest).deliveries.map Prod.fst = _
    rw [ih]
    exact keys_updA sys.deliveries id0 _

theorem reassignFold_deliveries_keys (dcalc : Point → Point → ℚ)
    (opt : List Point → List Point) :
    ∀ (objs : List (String × ℚ)) (acc : Bool × RSys),
      (objs.foldl (reassignOne dcalc opt) acc).2.deliveries.map Prod.fst =
        acc.2.deliveries.map Prod.fst := by
  intro objs
  induction objs with
  | nil => exact fun _ => rfl
  | cons obj rest ih =>
    intro acc
    rw [List.foldl_cons, ih, reassignOne_deliveries_keys]

/-- C3: for every registered vehicle (each of whose listed tasks exists
in the task registry), after `handle_truck_breakdown` every task it
previously owned is either pending with no owner, or in progress and
bound to a different still-registered vehicle whose task list contains
it; and no task disappears — the task registry's key set is unchanged. -/
theorem handleTruckBreakdown_no_task_lost (dcalc : Point → Point → ℚ)
    (opt : List Point → List Point) (sys : RSys) (truckId : String)
    (tr : TruckR) (htr : lookupA sys.trucks truckId = some tr)
    (hdel : ∀ did ∈ tr.deliveries, (lookupA sys.deliveries did).isSome) :
    (∀ did ∈ tr.deliveries,
      taskSafe (handleTruckBreakdown dcalc opt sys truckId).2 truckId did) ∧
    (handleTruckBreakdown dcalc opt sys truckId).2.deliveries.map Prod.fst =
      sys.deliveries.map Prod.fst := by
  have hpost : handleTruckBreakdown dcalc opt sys truckId =
      (sortByWeightDesc (tr.deliveries.filterMap (fun did =>
        (lookupA sys.deliveries did).map (fun dv => (did, dv.weight))))).foldl
        (reassignOne dcalc opt)
        (true, removeTruck (resetDeliveries sys tr.deliveries) truckId) := by
    simp only [handleTruckBreakdown, htr]
  constructor
  · intro did hdid
    rw [hpost]
    refine reassignFold_taskSafe dcalc opt truckId did _ _ ?_ ?_
    · exact removeTruck_not_key (resetDeliveries sys tr.deliveries) truckId
    · obtain ⟨dv0, hdv0⟩ : ∃ dv0, lookupA sys.deliveries did = some dv0 := by
        have hs := hdel did hdid
        cases hl : lookupA sys.deliveries did with
        | none => rw [hl] at hs; cases hs
        | some dv0 => exact ⟨dv0, rfl⟩
      refine ⟨resetDV dv0, ?_, Or.inl ⟨rfl, rfl⟩⟩
      show lookupA (resetDeliveries sys tr.deliveries).deliveries did = _
      rw [resetDeliveries_lookup_mem tr.deliveries sys did hdid, hdv0]
      rfl
  · rw [hpost, reassignFold_deliveries_keys]
    show (resetDeliveries sys tr.deliveries).deliveries.map Prod.fst = _
    rw [resetDeliveries_keys]

theorem reassignFold_deliveries_frame (dcalc : Point → Point → ℚ)
    (opt : List Point → List Point) :
    ∀ (objs : List (String × ℚ)) (acc : Bool × RSys) (did : String),
      did ∉ objs.map Prod.fst →
      lookupA (objs.foldl (reassignOne dcalc opt) acc).2.deliveries did =
        lookupA acc.2.deliveries did := by
  intro objs
  induction objs with
  | nil => exact fun _ _ _ => rfl
  | cons obj rest ih =>
    intro acc did hnot
    rw [List.foldl_cons,
      ih _ did (fun hc => hnot (List.mem_cons_of_mem _ hc)),
      reassignOne_deliveries_frame dcalc opt acc obj did
        (fun hc => hnot (hc ▸ List.mem_cons_self obj.1 (rest.map Prod.fst)))]

theorem reassignFold_success (dcalc : Point → Point → ℚ)
    (opt : List Point → List Point) :
    ∀ (objs : List (String × ℚ)) (sys : RSys) (flag : Bool),
      (objs.map Prod.fst).Nodup →
      (∀ od ∈ objs, ∃ dv, lookupA sys.deliveries od.1 = some dv ∧
        dv.status = "pending") →
      ((objs.foldl (reassignOne dcalc opt) (flag, sys)).1 = true ↔
        (flag = true ∧ ∀ od ∈ objs, ∃ dv,
          lookupA
            (objs.foldl (reassignOne dcalc opt) (flag, sys)).2.deliveries
            od.1 = some dv ∧ dv.status = "in_progress")) := by
  intro objs
  induction objs with
  | nil =>
    intro sys flag _ _
    simp
  | cons od rest ih =>
    intro sys flag hnd hpre
    obtain ⟨dv0, hdv0, hpend⟩ := hpre od (List.mem_cons_self od rest)
    rw [List.map_cons, List.nodup_cons] at hnd
    have hodrest : od.1 ∉ rest.map Prod.fst := hnd.1
    have hfailcase : ∀ sys2 : RSys, sys2 = sys →
        ((rest.foldl (reassignOne dcalc opt) (false, sys2)).1 = true ↔
          (flag = true ∧ ∀ od2 ∈ od :: rest, ∃ dv,
            lookupA (rest.foldl (reassignOne dcalc opt)
              (false, sys2)).2.deliveries od2.1 = some dv ∧
            dv.status = "in_progress")) := by
      intro sys2 hs2
      subst hs2
      constructor
      · intro h
        have := (ih sys2 false hnd.2
          (fun od2 h2 => hpre od2 (List.mem_cons_of_mem od h2))).mp h
        cases this.1
      · rintro ⟨-, hall⟩
        exfalso
        obtain ⟨dv, hdv, hprog⟩ := hall od (List.mem_cons_self od rest)
        rw [reassignFold_deliveries_frame dcalc opt rest _ od.1 hodrest]
          at hdv
        rw [hdv0] at hdv
        injection hdv with hdv2
        rw [← hdv2] at hprog
        rw [hpend] at hprog
        exact absurd hprog (by decide)
    cases hfind : findReassignTruck dcalc sys od.1 with
    | none =>
      rw [List.foldl_cons]
      have hstep : reassignOne dcalc opt (flag, sys) od = (false, sys) := by
        simp only [reassignOne, hfind]
      rw [hstep]
      exact hfailcase sys rfl
    | some tid =>
      by_cases hemp : tid = ""
      · rw [List.foldl_cons]
        have hstep : reassignOne dcalc opt (flag, sys) od = (false, sys) := by
          simp only [reassignOne, hfind]
          rw [if_pos hemp]
        rw [hstep]
        exact hfailcase sys rfl
      · rw [List.foldl_cons]
        have hstep : reassignOne dcalc opt (flag, sys) od =
            (flag,
              { sys with
                trucks := updA (updA sys.trucks tid (fun tr =>
                    { tr with deliveries := tr.deliveries ++ [od.1]
                              totalWeight := tr.totalWeight + dv0.weight
                              currentCapacity :=
                                tr.currentCapacity - dv0.weight })) tid
                  (fun tr =>
                    { tr with currentRoute := opt (optimizeStops
                        { trucks := updA sys.trucks tid (fun tr =>
                            { tr with
                              deliveries := tr.deliveries ++ [od.1]
                              totalWeight := tr.totalWeight + dv0.weight
                              currentCapacity :=
                                tr.currentCapacity - dv0.weight })
                          deliveries := updA sys.deliveries od.1 (fun dvv =>
                            { dvv with status := "in_progress"
                                       assignedTruck := some tid }) }
                        tid od.1) })
                deliveries := updA sys.deliveries od.1 (fun dvv =>
                  { dvv with status := "in_progress"
                             assignedTruck := some tid }) }) := by
          simp only [reassignOne, hfind, hdv0]
          rw [if_neg hemp]
        rw [hstep]
        set sysNew : RSys :=
          { sys with
            trucks := updA (updA sys.trucks tid (fun tr =>
                { tr with deliveries := tr.deliveries ++ [od.1]
                          totalWeight := tr.totalWeight + dv0.weight
                          currentCapacity :=
                            tr.currentCapacity - dv0.weight })) tid
              (fun tr =>
                { tr with currentRoute := opt (optimizeStops
                    { trucks := updA sys.trucks tid (fun tr =>
                        { tr with
                          deliveries := tr.deliveries ++ [od.1]
                          totalWeight := tr.totalWeight + dv0.weight
                          currentCapacity :=
                            tr.currentCapacity - dv0.weight })
                      deliveries := updA sys.deliveries od.1 (fun dvv =>
                        { dvv with status := "in_progress"
                                   assignedTruck := some tid }) }
                    tid od.1) })
            deliveries := updA sys.deliveries od.1 (fun dvv =>
              { dvv with status := "in_progress"
                         assignedTruck := some tid }) } with hsysNew
    -- the delivery record for od.1 in the mutated registry
        have hnewlook : lookupA sysNew.deliveries od.1 =
            some { dv0 with status := "in_progress"
                            assignedTruck := some tid } := by
          rw [hsysNew]
          show lookupA (updA sys.deliveries od.1 _) od.1 = _
          rw [lookupA_updA_self, hdv0]
          rfl
        have hprerest : ∀ od2 ∈ rest, ∃ dv,
            lookupA sysNew.deliveries od2.1 = some dv ∧
            dv.status = "pending" := by
          intro od2 h2
          obtain ⟨dv2, hdv2, hp2⟩ := hpre od2 (List.mem_cons_of_mem od h2)
          refine ⟨dv2, ?_, hp2⟩
          rw [hsysNew]
          show lookupA (updA sys.deliveries od.1 _) od2.1 = _
          rw [lookupA_updA_ne sys.deliveries od.1 od2.1 _
            (fun hc => hodrest (hc ▸ List.mem_map.mpr ⟨od2, h2, rfl⟩))]
          exact hdv2
        have hihn := ih sysNew flag hnd.2 hprerest
        rw [hihn]
        have hodfinal : ∃ dv,
            lookupA (rest.foldl (reassignOne dcalc opt)
              (flag, sysNew)).2.deliveries od.1 = some dv ∧
            dv.status = "in_progress" := by
          have hl : lookupA (rest.foldl (reassignOne dcalc opt)
              (flag, sysNew)).2.deliveries od.1 =
              some { dv0 with status := "in_progress"
                              assignedTruck := some tid } := by
            rw [reassignFold_deliveries_frame dcalc opt rest _ od.1 hodrest,
              hnewlook]
          exact ⟨_, hl, rfl⟩
        constructor
        · rintro ⟨hflag, hall⟩
          exact ⟨hflag, by
            intro od2 h2
            rcases List.mem_cons.mp h2 with h3 | h3
            · exact h3 ▸ hodfinal
            · exact hall od2 h3⟩
        · rintro ⟨hflag, hall⟩
          exact ⟨hflag, fun od2 h2 =>
            hall od2 (List.mem_cons_of_mem od h2)⟩

theorem insertByWeight_perm (x : String × ℚ) :
    ∀ l : List (String × ℚ), (insertByWeight x l).Perm (x :: l) := by
  intro l
  induction l with
  | nil => exact List.Perm.refl _
  | cons y ys ih =>
    rw [insertByWeight]
    by_cases h : x.2 ≥ y.2
    · rw [if_pos h]
    · rw [if_neg h]
      exact (ih.cons y).trans (List.Perm.swap x y ys)

theorem sortByWeightDesc_perm (l : List (String × ℚ)) :
    (sortByWeightDesc l).Perm l := by
  induction l with
  | nil => exact List.Perm.refl _
  | cons x xs ih =>
    show (insertByWeight x (sortByWeightDesc xs)).Perm (x :: xs)
    exact (insertByWeight_perm x (sortByWeightDesc xs)).trans (ih.cons x)

theorem filterMap_keys (sys : RSys) :
    ∀ failed : List String,
      (∀ did ∈ failed, (lookupA sys.deliveries did).isSome) →
      (failed.filterMap (fun did =>
        (lookupA sys.deliveries did).map
          (fun dv => (did, dv.weight)))).map Prod.fst = failed := by
  intro failed
  induction failed with
  | nil => exact fun _ => rfl
  | cons did0 rest ih =>
    intro hall
    obtain ⟨dv0, hdv0⟩ : ∃ dv0, lookupA sys.deliveries did0 = some dv0 := by
      have hs := hall did0 (List.mem_cons_self did0 rest)
      cases hl : lookupA sys.deliveries did0 with
      | none => rw [hl] at hs; cases hs
      | some dv0 => exact ⟨dv0, rfl⟩
    rw [List.filterMap_cons, hdv0]
    show ((did0, dv0.weight) :: _).map Prod.fst = _
    rw [List.map_cons,
      ih (fun did h => hall did (List.mem_cons_of_mem did0 h))]

/-- C5 (amended): `handle_truck_breakdown` reports only one overall
boolean; for a registered vehicle with duplicate-free, registered tasks,
that boolean is true exactly when every detached task ends the call
rebound (in progress) — per-task outcomes are printed, not returned. -/
theorem handleTruckBreakdown_success_iff (dcalc : Point → Point → ℚ)
    (opt : List Point → List Point) (sys : RSys) (truckId : String)
    (tr : TruckR) (htr : lookupA sys.trucks truckId = some tr)
    (hnd : tr.deliveries.Nodup)
    (hdel : ∀ did ∈ tr.deliveries, (lookupA sys.deliveries did).isSome) :
    ((handleTruckBreakdown dcalc opt sys truckId).1 = true ↔
      ∀ did ∈ tr.deliveries, ∃ dv,
        lookupA (handleTruckBreakdown dcalc opt sys truckId).2.deliveries
          did = some dv ∧ dv.status = "in_progress") := by
  have hpost : handleTruckBreakdown dcalc opt sys truckId =
      (sortByWeightDesc (tr.deliveries.filterMap (fun did =>
        (lookupA sys.deliveries did).map (fun dv => (did, dv.weight))))).foldl
        (reassignOne dcalc opt)
        (true, removeTruck (resetDeliveries sys tr.deliveries) truckId) := by
    simp only [handleTruckBreakdown, htr]
  set objs := tr.deliveries.filterMap (fun did =>
    (lookupA sys.deliveries did).map (fun dv => (did, dv.weight)))
    with hobjs
  set sys2 := removeTruck (resetDeliveries sys tr.deliveries) truckId
    with hsys2
  have hperm : (sortByWeightDesc objs).Perm objs := sortByWeightDesc_perm objs
  have hkeys : objs.map Prod.fst = tr.deliveries :=
    filterMap_keys sys tr.deliveries hdel
  have hnd2 : ((sortByWeightDesc objs).map Prod.fst).Nodup :=
    ((hperm.map Prod.fst).nodup_iff).mpr (by rw [hkeys]; exact hnd)
  have hmemobjs : ∀ od ∈ objs, ∃ dvx,
      lookupA sys.deliveries od.1 = some dvx := by
    intro od hod
    obtain ⟨did, hdidf, hmap⟩ := List.mem_filterMap.mp hod
    cases hl : lookupA sys.deliveries did with
    | none => rw [hl] at hmap; cases hmap
    | some dvx =>
      rw [hl] at hmap
      injection hmap with hmap2
      refine ⟨dvx, ?_⟩
      rw [← hmap2]
      exact hl
  have hpre : ∀ od ∈ sortByWeightDesc objs, ∃ dv,
      lookupA sys2.deliveries od.1 = some dv ∧ dv.status = "pending" := by
    intro od hod
    have hod2 : od ∈ objs := hperm.mem_iff.mp hod
    obtain ⟨dvx, hdvx⟩ := hmemobjs od hod2
    have hfst : od.1 ∈ tr.deliveries := by
      rw [← hkeys]
      exact List.mem_map.mpr ⟨od, hod2, rfl⟩
    refine ⟨resetDV dvx, ?_, rfl⟩
    show lookupA (resetDeliveries sys tr.deliveries).deliveries od.1 = _
    rw [resetDeliveries_lookup_mem tr.deliveries sys od.1 hfst, hdvx]
    rfl
  have hmain := reassignFold_success dcalc opt (sortByWeightDesc objs)
    sys2 true hnd2 hpre
  rw [hpost]
  rw [hmain]
  constructor
  · rintro ⟨-, hall⟩
    intro did hdid
    have hdid2 : did ∈ objs.map Prod.fst := by rw [hkeys]; exact hdid
    obtain ⟨od, hodm, hfst⟩ := List.mem_map.mp hdid2
    have hods : od ∈ sortByWeightDesc objs := hperm.mem_iff.mpr hodm
    rw [← hfst]
    exact hall od hods
  · intro hall
    refine ⟨rfl, ?_⟩
    intro od hod
    have hod2 : od ∈ objs := hperm.mem_iff.mp hod
    have hfst : od.1 ∈ tr.deliveries := by
      rw [← hkeys]
      exact List.mem_map.mpr ⟨od, hod2, rfl⟩
    exact hall od.1 hfst

/-- Witness for C3 at `demoSysBreak`: breaking B leaves D1 either pending
and unowned or rebound to a registered truck, and no task key vanishes. -/
theorem handleTruckBreakdown_no_task_lost_witness :
    (∀ did ∈ (["D1"] : List String),
      taskSafe (handleTruckBreakdown dLine id demoSysBreak "B").2 "B" did) ∧
    (handleTruckBreakdown dLine id demoSysBreak "B").2.deliveries.map
      Prod.fst = demoSysBreak.deliveries.map Prod.fst :=
  handleTruckBreakdown_no_task_lost dLine id demoSysBreak "B"
    ⟨10, 6, (0, 0), [], ["D1"], 4⟩ rfl (by decide)

/-- Witness for the amended C5 at `demoSysBreak`. -/
theorem handleTruckBreakdown_success_iff_witness :
    ((handleTruckBreakdown dLine id demoSysBreak "B").1 = true ↔
      ∀ did ∈ (["D1"] : List String), ∃ dv,
        lookupA (handleTruckBreakdown dLine id demoSysBreak "B").2.deliveries
          did = some dv ∧ dv.status = "in_progress") :=
  handleTruckBreakdown_success_iff dLine id demoSysBreak "B"
    ⟨10, 6, (0, 0), [], ["D1"], 4⟩ rfl (by decide) (by decide)

/-- C5 (counterexample): two breakdowns with opposite per-task outcomes
produce the same return value — a single boolean `false` — so the result
of `handle_truck_breakdown` does not identify, for each detached task,
whether that task was rebound or left pending: in scenario A task D1 ends
rebound (in progress) while in scenario B the same task ends pending,
yet both calls return the same value. -/
theorem handleTruckBreakdown_single_bool_cex :
    (handleTruckBreakdown dLine id demoAmbA "B").1 = false ∧
    (handleTruckBreakdown dLine id demoAmbB "B").1 = false ∧
    (∃ d, lookupA (handleTruckBreakdown dLine id demoAmbA "B").2.deliveries
      "D1" = some d ∧ d.status = "in_progress") ∧
    (∃ d, lookupA (handleTruckBreakdown dLine id demoAmbB "B").2.deliveries
      "D1" = some d ∧ d.status = "pending") := by
  have h12 : ("D1" : String) ≠ "D2" := by decide
  have h21 : ("D2" : String) ≠ "D1" := by decide
  have hBT : ("B" : String) ≠ "T2" := by decide
  have hTB : ("T2" : String) ≠ "B" := by decide
  have hTe : ¬ ("T2" : String) = "" := by decide
  norm_num [handleTruckBreakdown, resetDeliveries, removeTruck,
    sortByWeightDesc, insertByWeight, findReassignTruck, reassignOne,
    optimizeStops, lookupA, updA, distLt, dLine, demoAmbA, demoAmbB,
    h12, h21, hBT, hTB, hTe, List.filterMap, List.filter]

/-- Witness for C2: in `demoSys`, assigning D1 (weight 4) succeeds and
lands on T1, whose committed weight becomes 4 ≤ 10. -/
theorem assignDelivery_capacity_witness :
    ∃ tid tr dv,
      lookupA demoSys.deliveries "D1" = some dv ∧
      lookupA demoSys.trucks tid = some tr ∧
      dv.weight ≤ tr.currentCapacity ∧
      tr.totalWeight + dv.weight ≤ tr.maxCapacity ∧
      (∃ tr2, lookupA
          (assignDelivery dLine (fun _ _ => true) id demoSys "D1").2.trucks
            tid = some tr2 ∧
        tr2.totalWeight = tr.totalWeight + dv.weight ∧
        tr2.maxCapacity = tr.maxCapacity ∧
        tr2.totalWeight ≤ tr2.maxCapacity) ∧
      (∃ dv2, lookupA
          (assignDelivery dLine (fun _ _ => true) id demoSys "D1").2.deliveries
            "D1" = some dv2 ∧
        dv2.status = "in_progress" ∧ dv2.assignedTruck = some tid) ∧
      (∀ tid2, tid2 ≠ tid →
        lookupA (assignDelivery dLine (fun _ _ => true) id demoSys "D1").2.trucks
          tid2 = lookupA demoSys.trucks tid2) :=
  assignDelivery_capacity dLine (fun _ _ => true) id demoSys "D1"
    (by simp [demoSys])
    (by
      norm_num [assignDelivery, findSuitableTruck, lookupA, updA,
        distLt, dLine, demoSys]
      rw [if_neg (show ¬ ("T1" : String) = "" by decide)])

/-- C4 (failing run): moving truck T to (5,5), where BOTH of its
in-progress deliveries' dropoffs lie (distance 0, inside the 0.01
threshold), completes only D1.  Removing D1 from the list being iterated
shifts D2 into the consumed position, so the loop skips it: D2 stays
in_progress, still on the truck, its weight never restored — although the
claim says every qualifying task is completed in the same call. -/
theorem updateTruckStatus_skips_second :
    (∃ d1, lookupA (updateTruckStatus dLine demoSysTwo "T" (5, 5)).deliveries
        "D1" = some d1 ∧ d1.status = "completed") ∧
    (∃ d2, lookupA (updateTruckStatus dLine demoSysTwo "T" (5, 5)).deliveries
        "D2" = some d2 ∧ d2.status = "in_progress") ∧
    (∃ t, lookupA (updateTruckStatus dLine demoSysTwo "T" (5, 5)).trucks
        "T" = some t ∧ t.deliveries = ["D2"] ∧ t.totalWeight = 4) := by
  have h12 : ("D1" : String) ≠ "D2" := by decide
  have h21 : ("D2" : String) ≠ "D1" := by decide
  norm_num [updateTruckStatus, advanceLoop, lookupA, updA, dLine,
    demoSysTwo, List.getD, List.erase, h12, h21]

theorem assignLoop_spec (d : Point → Point → ℚ)
    (opt : List Point → List Point) (o : OrderR) (trucks : List OTruck) :
    ∀ cands : List (Nat × OTruck),
      ((assignLoop d opt o trucks cands).2 = none →
        (assignLoop d opt o trucks cands).1 = trucks ∧
        ∀ p ∈ cands, ¬ routeGate d opt o p.2) ∧
      (∀ i, (assignLoop d opt o trucks cands).2 = some i →
        ∃ t, cands.find? (fun p => decide (routeGate d opt o p.2)) =
            some (i, t) ∧
          routeGate d opt o t ∧
          (assignLoop d opt o trucks cands).1 = trucks.set i
            { t.addOrder o with
              route := opt (dedupFirst (t.route ++ [o.pickup, o.dropoff])) }) := by
  intro cands
  induction cands with
  | nil =>
    refine ⟨fun _ => ⟨rfl, fun p hp => absurd hp (List.not_mem_nil p)⟩, ?_⟩
    intro i h
    cases h
  | cons c rest ih =>
    obtain ⟨i0, t⟩ := c
    by_cases hg : (totalRouteDistance d
        (opt (dedupFirst (t.route ++ [o.pickup, o.dropoff]))) true ≤
      totalRouteDistance d t.route true * (6 / 5) ∨
      totalRouteDistance d t.route true = 0)
    · have hstep : assignLoop d opt o trucks ((i0, t) :: rest) =
          (trucks.set i0 { t.addOrder o with
            route := opt (dedupFirst (t.route ++ [o.pickup, o.dropoff])) },
            some i0) := by
        show (if _ then _ else _) = _
        rw [if_pos hg]
      constructor
      · intro h
        rw [hstep] at h
        cases h
      · intro i h
        rw [hstep] at h
        injection h with h2
        subst h2
        refine ⟨t, ?_, hg, by rw [hstep]⟩
        exact List.find?_cons_of_pos rest
          (decide_eq_true (show routeGate d opt o t from hg))
    · have hstep : assignLoop d opt o trucks ((i0, t) :: rest) =
          assignLoop d opt o trucks rest := by
        show (if _ then _ else _) = _
        rw [if_neg hg]
      rw [hstep]
      have hfind : ((i0, t) :: rest).find?
          (fun p => decide (routeGate d opt o p.2)) =
          rest.find? (fun p => decide (routeGate d opt o p.2)) :=
        List.find?_cons_of_neg rest
          (by simpa using (show ¬ routeGate d opt o t from hg))
      constructor
      · intro h
        obtain ⟨h1, h2⟩ := (ih).1 h
        refine ⟨h1, ?_⟩
        intro p hp
        rcases List.mem_cons.mp hp with h3 | h3
        · subst h3
          exact hg
        · exact h2 p h3
      · intro i h
        obtain ⟨t2, hfind2, hg2, heq⟩ := (ih).2 i h
        exact ⟨t2, by rw [hfind]; exact hfind2, hg2, heq⟩

/-- C8: in the order-intake variant, whenever the order is assigned the
chosen candidate is the FIRST capacity-feasible truck whose re-optimized
route passes the gate (new length ≤ 1.2× previous length, or previous
length 0), and the fleet update installs exactly the recomputed route and
appended order on that truck; when no candidate passes the gate the order
stays unassigned and no truck's route or order list changes. -/
theorem assignNewOrder_gate (d : Point → Point → ℚ)
    (opt : List Point → List Point) (trucks : List OTruck) (o : OrderR) :
    ((assignNewOrder d opt trucks o).2 = none →
      (assignNewOrder d opt trucks o).1 = trucks ∧
      ∀ p ∈ (trucks.enum).filter
          (fun p => decide (o.weight ≤ p.2.remainingCapacity)),
        ¬ routeGate d opt o p.2) ∧
    (∀ i, (assignNewOrder d opt trucks o).2 = some i →
      ∃ t, ((trucks.enum).filter
          (fun p => decide (o.weight ≤ p.2.remainingCapacity))).find?
          (fun p => decide (routeGate d opt o p.2)) = some (i, t) ∧
        routeGate d opt o t ∧
        (assignNewOrder d opt trucks o).1 = trucks.set i
          { t.addOrder o with
            route := opt (dedupFirst (t.route ++ [o.pickup, o.dropoff])) }) :=
  assignLoop_spec d opt o trucks
    ((trucks.enum).filter (fun p => decide (o.weight ≤ p.2.remainingCapacity)))

/-- Witness for C8: an idle truck (route = its own location, length 0)
accepts any order through the `current_distance == 0` escape hatch. -/
theorem assignNewOrder_gate_witness :
    ∃ t, (([OTruck.mk0 "T1" (0, 0) 10].enum).filter
        (fun p => decide ((⟨"O1", 4, (1, 0), (2, 0)⟩ : OrderR).weight ≤
          p.2.remainingCapacity))).find?
        (fun p => decide (routeGate dLine id
          (⟨"O1", 4, (1, 0), (2, 0)⟩ : OrderR) p.2)) = some (0, t) ∧
      routeGate dLine id (⟨"O1", 4, (1, 0), (2, 0)⟩ : OrderR) t ∧
      (assignNewOrder dLine id [OTruck.mk0 "T1" (0, 0) 10]
        (⟨"O1", 4, (1, 0), (2, 0)⟩ : OrderR)).1 =
        [OTruck.mk0 "T1" (0, 0) 10].set 0
          { t.addOrder (⟨"O1", 4, (1, 0), (2, 0)⟩ : OrderR) with
            route := id (dedupFirst (t.route ++ [(1, 0), (2, 0)])) } :=
  (assignNewOrder_gate dLine id [OTruck.mk0 "T1" (0, 0) 10]
    ⟨"O1", 4, (1, 0), (2, 0)⟩).2 0
    (by norm_num [assignNewOrder, assignLoop, dedupFirst, dedupAux,
      totalRouteDistance, consecSum, dLine, OTruck.mk0, OTruck.addOrder,
      OTruck.updateCapacity, List.enum, List.filter, List.cons_ne_nil])

theorem OTruck.capacityInvariant_addOrder (t : OTruck) (o : OrderR) :
    (t.addOrder o).capacityInvariant := by
  simp [OTruck.addOrder, OTruck.updateCapacity, OTruck.capacityInvariant]

/-- C10: starting from a freshly constructed truck, after any sequence of
`add_order` calls the truck's `remaining_capacity` equals its
`max_capacity` minus the sum of the weights of all orders in
`assigned_orders`; each `add_order` appends the order and recomputes the
capacity from scratch, so the invariant holds after every operation
(negative values included when the sum exceeds the maximum capacity). -/
theorem addOrder_capacity_invariant (id : String) (loc : Point) (cap : ℚ)
    (os : List OrderR) :
    (os.foldl OTruck.addOrder (OTruck.mk0 id loc cap)).capacityInvariant ∧
      (os.foldl OTruck.addOrder (OTruck.mk0 id loc cap)).assignedOrders = os := by
  have step : ∀ (t : OTruck) (rest : List OrderR),
      (rest.foldl OTruck.addOrder t).capacityInvariant ∨ rest = [] := by
    intro t rest
    induction rest generalizing t with
    | nil => exact Or.inr rfl
    | cons o rest ih =>
      left
      rcases ih (t.addOrder o) with h | h
      · simpa using h
      · simpa [h] using OTruck.capacityInvariant_addOrder t o
  constructor
  · rcases step (OTruck.mk0 id loc cap) os with h | h
    · exact h
    · simp [h, OTruck.mk0, OTruck.capacityInvariant]
  · have acc : ∀ (t : OTruck) (rest : List OrderR),
        (rest.foldl OTruck.addOrder t).assignedOrders =
          t.assignedOrders ++ rest := by
      intro t rest
      induction rest generalizing t with
      | nil => simp
      | cons o rest ih =>
        simp [ih, OTruck.addOrder, OTruck.updateCapacity]
    simpa [OTruck.mk0] using acc (OTruck.mk0 id loc cap) os

/-- C9: `optimize_route` raises its input error exactly on the empty stop
list; every non-empty list of at most 2 stops is returned unchanged with
the optimizer state untouched; every longer list yields a normal result,
never an error. -/
theorem optimizeRoute_small_inputs (d : Point → Point → ℚ)
    (picks : Nat → Nat → Nat → List Nat → Nat) (cfg : CiacoConfig)
    (st : CiacoState) (stops : List Point) :
    (stops = [] →
      optimizeRoute d picks cfg st stops = .error "Stops list cannot be empty") ∧
    (stops ≠ [] → stops.length ≤ 2 →
      optimizeRoute d picks cfg st stops = .ok (some stops, st)) ∧
    (stops ≠ [] → ∃ x, optimizeRoute d picks cfg st stops = .ok x) := by
  refine ⟨fun h => by simp [optimizeRoute, h], fun h hl => by
    simp [optimizeRoute, h, hl], fun h => ?_⟩
  by_cases hl : stops.length ≤ 2
  · exact ⟨(some stops, st), by simp [optimizeRoute, h, hl]⟩
  · unfold optimizeRoute
    rw [if_neg h, if_neg hl]
    exact ⟨_, rfl⟩

/-- Witness for C9 at concrete inputs: a two-stop list comes back
unchanged with the state untouched. -/
theorem optimizeRoute_small_inputs_witness :
    optimizeRoute (fun _ _ => 0) (fun _ _ _ _ => 0) ⟨10, 50, true⟩
        CiacoState.fresh [((0 : ℚ), (0 : ℚ)), ((1 : ℚ), (1 : ℚ))] =
      .ok (some [((0 : ℚ), (0 : ℚ)), ((1 : ℚ), (1 : ℚ))], CiacoState.fresh) :=
  (optimizeRoute_small_inputs (fun _ _ => 0) (fun _ _ _ _ => 0) ⟨10, 50, true⟩
    CiacoState.fresh [((0 : ℚ), (0 : ℚ)), ((1 : ℚ), (1 : ℚ))]).2.1
    (by decide) (by decide)

